import Mathlib

/-!
Verification of the semantic middle-end of the ante compiler
(type inference / unification, monomorphisation, refinement bridge).

The definitions below are a shallow embedding of the Rust sources:
  - `src/types/typechecker.rs`   (unification, occurs check, binding commits)
  - `src/hir/monomorphisation.rs` (type lowering, sizes, integer defaulting)
  - `src/refine/context.rs`       (SMT sort translation)

Machine integers of the source become `Nat`; `Vec`/`HashMap` become lists
and association lists (a `HashMap` holds at most one entry per key, so an
association list whose insert removes the old key is a faithful model);
`&mut` state becomes explicit state passing where the function can write it,
and a read-only argument where the Rust body contains no write to it.
Rust recursion that is not structurally terminating (the source can loop
forever on a corrupted cyclic cache) is modelled with an explicit fuel
parameter: `none` means the recursion did not finish within the given fuel.
The monomorphiser's own functions carry a genuine fuel (`RECURSION_LIMIT`)
in the Rust source and panic when it runs out; for those, exhaustion is a
real program abort and is likewise modelled by a distinguished result.
-/

namespace Ante

/-! ## Data model: types (src/types, as used by typechecker.rs and monomorphisation.rs) -/

/-- Integer kinds as produced by the lexer (`crate::lexer::token::IntegerKind`):
an unannotated literal is `Unknown` until inference gives it an `Inferred`
type variable; the rest are the concrete machine integer kinds. -/
inductive TokenIntegerKind where
  | Unknown
  | Inferred (id : Nat)
  | I8 | I16 | I32 | I64 | Isz
  | U8 | U16 | U32 | U64 | Usz
deriving DecidableEq

/-- Integer kinds of the monomorphised IR (`hir::types::IntegerKind`). -/
inductive HirIntegerKind where
  | I8 | I16 | I32 | I64 | Isz
  | U8 | U16 | U32 | U64 | Usz
deriving DecidableEq

/-- `types::PrimitiveType`. -/
inductive PrimitiveType where
  | IntegerType (kind : TokenIntegerKind)
  | FloatType
  | CharType
  | BooleanType
  | UnitType
  | Ptr
deriving DecidableEq

/-- `types::Type`: the type terms of the inference engine.
`Function` carries parameters, return type, environment and a varargs flag
(`types::FunctionType`); `Ref` carries its lifetime variable id. -/
inductive Ty where
  | Primitive (p : PrimitiveType)
  | Function (parameters : List Ty) (return_type : Ty) (environment : Ty) (is_varargs : Bool)
  | TypeVariable (id : Nat)
  | UserDefined (id : Nat)
  | TypeApplication (constructor : Ty) (args : List Ty)
  | Ref (lifetime : Nat)

mutual

/-- Decidable structural equality on `Ty` (Rust `PartialEq` on `types::Type`). -/
def decEqTy : (a b : Ty) → Decidable (a = b)
  | .Primitive p, .Primitive q =>
      if h : p = q then .isTrue (by rw [h]) else .isFalse (fun hh => h (by cases hh; rfl))
  | .Function ps r e v, .Function ps' r' e' v' =>
      match decEqTyList ps ps' with
      | .isFalse h => .isFalse (fun hh => h (by cases hh; rfl))
      | .isTrue h1 =>
        match decEqTy r r' with
        | .isFalse h => .isFalse (fun hh => h (by cases hh; rfl))
        | .isTrue h2 =>
          match decEqTy e e' with
          | .isFalse h => .isFalse (fun hh => h (by cases hh; rfl))
          | .isTrue h3 =>
            if h4 : v = v' then .isTrue (by rw [h1, h2, h3, h4])
            else .isFalse (fun hh => h4 (by cases hh; rfl))
  | .TypeVariable i, .TypeVariable j =>
      if h : i = j then .isTrue (by rw [h]) else .isFalse (fun hh => h (by cases hh; rfl))
  | .UserDefined i, .UserDefined j =>
      if h : i = j then .isTrue (by rw [h]) else .isFalse (fun hh => h (by cases hh; rfl))
  | .TypeApplication c args, .TypeApplication c' args' =>
      match decEqTy c c' with
      | .isFalse h => .isFalse (fun hh => h (by cases hh; rfl))
      | .isTrue h1 =>
        match decEqTyList args args' with
        | .isFalse h => .isFalse (fun hh => h (by cases hh; rfl))
        | .isTrue h2 => .isTrue (by rw [h1, h2])
  | .Ref i, .Ref j =>
      if h : i = j then .isTrue (by rw [h]) else .isFalse (fun hh => h (by cases hh; rfl))
  | .Primitive _, .Function _ _ _ _ => .isFalse (fun h => Ty.noConfusion h)
  | .Primitive _, .TypeVariable _ => .isFalse (fun h => Ty.noConfusion h)
  | .Primitive _, .UserDefined _ => .isFalse (fun h => Ty.noConfusion h)
  | .Primitive _, .TypeApplication _ _ => .isFalse (fun h => Ty.noConfusion h)
  | .Primitive _, .Ref _ => .isFalse (fun h => Ty.noConfusion h)
  | .Function _ _ _ _, .Primitive _ => .isFalse (fun h => Ty.noConfusion h)
  | .Function _ _ _ _, .TypeVariable _ => .isFalse (fun h => Ty.noConfusion h)
  | .Function _ _ _ _, .UserDefined _ => .isFalse (fun h => Ty.noConfusion h)
  | .Function _ _ _ _, .TypeApplication _ _ => .isFalse (fun h => Ty.noConfusion h)
  | .Function _ _ _ _, .Ref _ => .isFalse (fun h => Ty.noConfusion h)
  | .TypeVariable _, .Primitive _ => .isFalse (fun h => Ty.noConfusion h)
  | .TypeVariable _, .Function _ _ _ _ => .isFalse (fun h => Ty.noConfusion h)
  | .TypeVariable _, .UserDefined _ => .isFalse (fun h => Ty.noConfusion h)
  | .TypeVariable _, .TypeApplication _ _ => .isFalse (fun h => Ty.noConfusion h)
  | .TypeVariable _, .Ref _ => .isFalse (fun h => Ty.noConfusion h)
  | .UserDefined _, .Primitive _ => .isFalse (fun h => Ty.noConfusion h)
  | .UserDefined _, .Function _ _ _ _ => .isFalse (fun h => Ty.noConfusion h)
  | .UserDefined _, .TypeVariable _ => .isFalse (fun h => Ty.noConfusion h)
  | .UserDefined _, .TypeApplication _ _ => .isFalse (fun h => Ty.noConfusion h)
  | .UserDefined _, .Ref _ => .isFalse (fun h => Ty.noConfusion h)
  | .TypeApplication _ _, .Primitive _ => .isFalse (fun h => Ty.noConfusion h)
  | .TypeApplication _ _, .Function _ _ _ _ => .isFalse (fun h => Ty.noConfusion h)
  | .TypeApplication _ _, .TypeVariable _ => .isFalse (fun h => Ty.noConfusion h)
  | .TypeApplication _ _, .UserDefined _ => .isFalse (fun h => Ty.noConfusion h)
  | .TypeApplication _ _, .Ref _ => .isFalse (fun h => Ty.noConfusion h)
  | .Ref _, .Primitive _ => .isFalse (fun h => Ty.noConfusion h)
  | .Ref _, .Function _ _ _ _ => .isFalse (fun h => Ty.noConfusion h)
  | .Ref _, .TypeVariable _ => .isFalse (fun h => Ty.noConfusion h)
  | .Ref _, .UserDefined _ => .isFalse (fun h => Ty.noConfusion h)
  | .Ref _, .TypeApplication _ _ => .isFalse (fun h => Ty.noConfusion h)

/-- Decidable equality on lists of types. -/
def decEqTyList : (a b : List Ty) → Decidable (a = b)
  | [], [] => .isTrue rfl
  | [], _ :: _ => .isFalse (fun h => List.noConfusion h)
  | _ :: _, [] => .isFalse (fun h => List.noConfusion h)
  | x :: xs, y :: ys =>
      match decEqTy x y with
      | .isFalse h => .isFalse (fun hh => h (by cases hh; rfl))
      | .isTrue h1 =>
        match decEqTyList xs ys with
        | .isFalse h => .isFalse (fun hh => h (by cases hh; rfl))
        | .isTrue h2 => .isTrue (by rw [h1, h2])

end

instance : DecidableEq Ty := decEqTy

/-- `types::TypeBinding`: the binding state of a type variable in the cache.
The kind tag of an unbound variable is opaque to every claim here and is
represented by a `Nat`. -/
inductive TypeBinding where
  | Bound (typ : Ty)
  | Unbound (level : Nat) (kind : Nat)
deriving DecidableEq

/-- One variant of a sum type (`types::TypeConstructor`); only its argument
types matter to the layout computations. -/
structure TypeConstructorInfo where
  args : List Ty
deriving DecidableEq

/-- One field of a struct type (`types::Field`). -/
structure FieldInfo where
  field_type : Ty
deriving DecidableEq

/-- `types::TypeInfoBody`. -/
inductive TypeInfoBody where
  | Union (variants : List TypeConstructorInfo)
  | Struct (fields : List FieldInfo)
  | Alias (typ : Ty)
  | Unknown
deriving DecidableEq

/-- `types::TypeInfo`: the generic parameters and body of a user-defined type. -/
structure TypeInfo where
  args : List Nat
  body : TypeInfoBody
deriving DecidableEq

/-- The part of `ModuleCache` the verified functions read and write:
`type_bindings` is indexed by type-variable id, `type_infos` by type-info id. -/
structure Cache where
  type_bindings : List TypeBinding
  type_infos : List TypeInfo
deriving DecidableEq

/-- Read `cache.type_bindings[id]` (`Vec` indexing). -/
def getB (l : List TypeBinding) (i : Nat) : TypeBinding :=
  match l, i with
  | [], _ => .Unbound 0 0
  | b :: _, 0 => b
  | _ :: rest, n+1 => getB rest n

/-- Write `cache.type_bindings[id] = b` (`Vec` indexed assignment). -/
def setB (l : List TypeBinding) (i : Nat) (b : TypeBinding) : List TypeBinding :=
  match l, i with
  | [], _ => []
  | _ :: rest, 0 => b :: rest
  | x :: rest, n+1 => x :: setB rest n b

/-- Association-list lookup, modelling `HashMap::get`. -/
def lookupA {κ α : Type} [DecidableEq κ] (l : List (κ × α)) (k : κ) : Option α :=
  match l with
  | [] => none
  | (k', v) :: rest => if k' = k then some v else lookupA rest k

/-- Read `cache.type_infos[id]`. -/
def getTypeInfo (cache : Cache) (id : Nat) : TypeInfo :=
  (cache.type_infos.getD id ⟨[], .Unknown⟩)

/-! ## Unification (src/types/typechecker.rs)

None of the functions of the unification path (`find_binding`, `occurs`,
`typevars_match`, `follow_bindings_in_cache_and_map`) contains a write to
`cache.type_bindings` in the Rust source, so they take the cache as a plain
argument; `try_unify_with_bindings` and its helpers thread the cache through
explicitly so that the frame property can be stated and proved. -/

/-- `UnificationBindings` (typechecker.rs:66-70): accumulated type bindings
plus pending level lowerings, not yet committed to the cache. -/
structure UnificationBindings where
  bindings : List (Nat × Ty)
  level_bindings : List (Nat × Nat)
deriving DecidableEq

/-- `UnificationBindings::empty`. -/
def UnificationBindings.empty : UnificationBindings := ⟨[], []⟩

/-- `HashMap::insert` on the bindings accumulator: at most one entry per key. -/
def insertBinding (bnd : UnificationBindings) (id : Nat) (t : Ty) : UnificationBindings :=
  ⟨(id, t) :: bnd.bindings.filter (fun p => ¬ p.1 = id), bnd.level_bindings⟩

/-- `find_binding` (typechecker.rs:379-387): the cache binding if bound there,
otherwise the accumulator binding, otherwise unbound. -/
def find_binding (id : Nat) (map : UnificationBindings) (cache : Cache) : TypeBinding :=
  match getB cache.type_bindings id with
  | .Bound t => .Bound t
  | .Unbound level kind =>
    match lookupA map.bindings id with
    | some t => .Bound t
    | none => .Unbound level kind

/-- `follow_bindings_in_cache_and_map` (typechecker.rs:469-479): follow
top-level type variable links through accumulator and cache. -/
def follow_bindings_in_cache_and_map (fuel : Nat) (t : Ty) (bnd : UnificationBindings)
    (cache : Cache) : Option Ty :=
  match fuel with
  | 0 => none
  | f+1 =>
    match t with
    | .TypeVariable id | .Ref id =>
      match find_binding id bnd cache with
      | .Bound t' => follow_bindings_in_cache_and_map f t' bnd cache
      | .Unbound _ _ => some t
    | _ => some t

/-- `follow_bindings_in_cache` (typechecker.rs:481-489): follow top-level
type variable links through the cache only.  The Rust function carries no
recursion bound; the fuel is an artifact of the embedding. -/
def follow_bindings_in_cache (fuel : Nat) (t : Ty) (cache : Cache) : Option Ty :=
  match fuel with
  | 0 => none
  | f+1 =>
    match t with
    | .TypeVariable id | .Ref id =>
      match getB cache.type_bindings id with
      | .Bound t' => follow_bindings_in_cache f t' cache
      | .Unbound _ _ => some t
    | _ => some t

/-- `OccursResult` (typechecker.rs:389-392). -/
structure OccursResult where
  occurs : Bool
  level_bindings : List (Nat × Nat)
deriving DecidableEq

mutual

/-- `occurs` (typechecker.rs:432-449): does the unbound variable `id` occur in
`t`, following bindings?  Accumulates level lowerings as `OccursResult`s are
combined with `then`/`then_all`, which short-circuit once an occurrence is
found. -/
def occursIn (fuel id level : Nat) (t : Ty) (bnd : UnificationBindings) (cache : Cache) :
    Option OccursResult :=
  match fuel with
  | 0 => none
  | f+1 =>
    match t with
    | .Primitive _ => some ⟨false, []⟩
    | .UserDefined _ => some ⟨false, []⟩
    | .TypeVariable var_id => typevars_match f id level var_id bnd cache
    | .Function ps r e _ =>
      match occursIn f id level r bnd cache with
      | none => none
      | some ⟨true, ls⟩ => some ⟨true, ls⟩
      | some ⟨false, ls1⟩ =>
        match occursIn f id level e bnd cache with
        | none => none
        | some ⟨true, ls2⟩ => some ⟨true, ls1 ++ ls2⟩
        | some ⟨false, ls2⟩ => occursAll f id level ps (ls1 ++ ls2) bnd cache
    | .TypeApplication c args =>
      match occursIn f id level c bnd cache with
      | none => none
      | some ⟨true, ls⟩ => some ⟨true, ls⟩
      | some ⟨false, ls⟩ => occursAll f id level args ls bnd cache
    | .Ref lifetime => typevars_match f id level lifetime bnd cache
termination_by structural fuel

/-- `OccursResult::then_all` (typechecker.rs:412-424): run the occurs check
over each element, appending level bindings, stopping at the first
occurrence. -/
def occursAll (fuel id level : Nat) (ts : List Ty) (acc : List (Nat × Nat))
    (bnd : UnificationBindings) (cache : Cache) : Option OccursResult :=
  match fuel with
  | 0 => none
  | f+1 =>
    match ts with
    | [] => some ⟨false, acc⟩
    | t :: rest =>
      match occursIn f id level t bnd cache with
      | none => none
      | some ⟨true, ls⟩ => some ⟨true, acc ++ ls⟩
      | some ⟨false, ls⟩ => occursAll f id level rest (acc ++ ls) bnd cache
termination_by structural fuel

/-- `typevars_match` (typechecker.rs:455-466): recurse into a bound haystack
variable; an unbound haystack is compared with the needle, recording
`(needle, level)` as a level binding when `level` is lower.  (Note that the
source records the needle here, not the haystack.) -/
def typevars_match (fuel needle level haystack : Nat) (bnd : UnificationBindings)
    (cache : Cache) : Option OccursResult :=
  match fuel with
  | 0 => none
  | f+1 =>
    match find_binding haystack bnd cache with
    | .Bound binding => occursIn f needle level binding bnd cache
    | .Unbound original_level _ =>
      some ⟨decide (needle = haystack),
            if level < original_level then [(needle, level)] else []⟩
termination_by structural fuel

end

/-- The diagnostics unification can fail with (the `make_error!` messages of
typechecker.rs: recursive type, function argument count, type application
arity, type mismatch). -/
inductive UErr where
  | recursiveType
  | argCount
  | arity
  | typeMismatch
deriving DecidableEq

/-- Outcome of `try_unify_with_bindings`: `Ok(())` or a diagnostic. -/
inductive UnifyOutcome where
  | ok
  | err (e : UErr)
deriving DecidableEq

mutual

/-- `try_unify_with_bindings` (typechecker.rs:501-572).  Returns the outcome
together with the updated accumulator and the threaded cache (the Rust
function takes the cache as `&mut`; its body contains no write to it, and the
frame theorem below proves the threaded cache is returned unchanged). -/
def try_unify_with_bindings (fuel : Nat) (t1 t2 : Ty) (bnd : UnificationBindings)
    (cache : Cache) : Option (UnifyOutcome × UnificationBindings × Cache) :=
  match fuel with
  | 0 => none
  | f+1 =>
    match t1, t2 with
    | .Primitive p1, .Primitive p2 =>
      if p1 = p2 then some (.ok, bnd, cache) else some (.err .typeMismatch, bnd, cache)
    | .UserDefined id1, .UserDefined id2 =>
      if id1 = id2 then some (.ok, bnd, cache) else some (.err .typeMismatch, bnd, cache)
    | .TypeVariable id, _ => try_unify_type_variable_with_bindings f id (.TypeVariable id) t2 bnd cache
    | _, .TypeVariable id => try_unify_type_variable_with_bindings f id (.TypeVariable id) t1 bnd cache
    | .Function ps1 r1 e1 v1, .Function ps2 r2 e2 v2 =>
      if ps1.length ≠ ps2.length ∧
         ¬ (v1 = true ∧ ps2.length ≥ ps1.length) ∧
         ¬ (v2 = true ∧ ps1.length ≥ ps2.length) then
        some (.err .argCount, bnd, cache)
      else
        match try_unify_pairs f (ps1.zip ps2) bnd cache with
        | none => none
        | some (.err e, bnd', cache') => some (.err e, bnd', cache')
        | some (.ok, bnd', cache') =>
          match try_unify_with_bindings f r1 r2 bnd' cache' with
          | none => none
          | some (.err e, bnd'', cache'') => some (.err e, bnd'', cache'')
          | some (.ok, bnd'', cache'') => try_unify_with_bindings f e1 e2 bnd'' cache''
    | .TypeApplication c1 args1, .TypeApplication c2 args2 =>
      if args1.length ≠ args2.length then
        some (.err .arity, bnd, cache)
      else
        match try_unify_with_bindings f c1 c2 bnd cache with
        | none => none
        | some (.err e, bnd', cache') => some (.err e, bnd', cache')
        | some (.ok, bnd', cache') => try_unify_pairs f (args1.zip args2) bnd' cache'
    | .Ref l1, .Ref _ => try_unify_type_variable_with_bindings f l1 (.Ref l1) t2 bnd cache
    | _, _ => some (.err .typeMismatch, bnd, cache)
termination_by structural fuel

/-- The `for` loops of `try_unify_with_bindings` unifying corresponding
pairs, propagating the first error (`?`) and keeping accumulator changes. -/
def try_unify_pairs (fuel : Nat) (ps : List (Ty × Ty)) (bnd : UnificationBindings)
    (cache : Cache) : Option (UnifyOutcome × UnificationBindings × Cache) :=
  match fuel with
  | 0 => none
  | f+1 =>
    match ps with
    | [] => some (.ok, bnd, cache)
    | (a, b) :: rest =>
      match try_unify_with_bindings f a b bnd cache with
      | none => none
      | some (.err e, bnd', cache') => some (.err e, bnd', cache')
      | some (.ok, bnd', cache') => try_unify_pairs f rest bnd' cache'
termination_by structural fuel

/-- `try_unify_type_variable_with_bindings` (typechecker.rs:576-604): unify
the variable `id` (appearing as type `a`) with `b`.  If `id` is bound, recurse
on the binding; otherwise follow `b` shallowly, succeed trivially when it is
`a` itself, and otherwise run the occurs check before inserting the binding.
The occurs result's level bindings are dropped, as in the source. -/
def try_unify_type_variable_with_bindings (fuel id : Nat) (a b : Ty)
    (bnd : UnificationBindings) (cache : Cache) :
    Option (UnifyOutcome × UnificationBindings × Cache) :=
  match fuel with
  | 0 => none
  | f+1 =>
    match find_binding id bnd cache with
    | .Bound a' => try_unify_with_bindings f a' b bnd cache
    | .Unbound a_level _ =>
      match follow_bindings_in_cache_and_map f b bnd cache with
      | none => none
      | some b' =>
        if a = b' then
          some (.ok, bnd, cache)
        else
          match occursIn f id a_level b' bnd cache with
          | none => none
          | some r =>
            if r.occurs then
              some (.err .recursiveType, bnd, cache)
            else
              some (.ok, insertBinding bnd id b', cache)
termination_by structural fuel

end

/-- `try_unify` (typechecker.rs:609-614): unify starting from an empty
accumulator. -/
def try_unify (fuel : Nat) (t1 t2 : Ty) (cache : Cache) :
    Option (UnifyOutcome × UnificationBindings × Cache) :=
  try_unify_with_bindings fuel t1 t2 UnificationBindings.empty cache

/-- `perform_type_bindings` (typechecker.rs:666-670): permanently bind each
accumulated variable in the cache. -/
def perform_type_bindings (bs : List (Nat × Ty)) (cache : Cache) : Cache :=
  match bs with
  | [] => cache
  | (id, t) :: rest =>
    perform_type_bindings rest ⟨setB cache.type_bindings id (.Bound t), cache.type_infos⟩

/-- The level-lowering loop of `UnificationBindings::perform`
(typechecker.rs:84-92): entries that became bound are skipped, unbound ones
get the minimum of the recorded and current level. -/
def perform_level_bindings (ls : List (Nat × Nat)) (cache : Cache) : Cache :=
  match ls with
  | [] => cache
  | (id, level) :: rest =>
    match getB cache.type_bindings id with
    | .Bound _ => perform_level_bindings rest cache
    | .Unbound original_level kind =>
      perform_level_bindings rest
        ⟨setB cache.type_bindings id (.Unbound (min level original_level) kind), cache.type_infos⟩

/-- `UnificationBindings::perform` (typechecker.rs:81-93): commit the type
bindings, then apply the level lowerings. -/
def UnificationBindings.perform (bnd : UnificationBindings) (cache : Cache) : Cache :=
  perform_level_bindings bnd.level_bindings (perform_type_bindings bnd.bindings cache)

/-- `bind_typevars`/`bind_typevar` helper table (typechecker.rs:106-108,
`type_application_bindings`): pair the type's generic parameters with the
concrete arguments of a type application. -/
def type_application_bindings (info_args : List Nat) (typeargs : List Ty) : List (Nat × Ty) :=
  info_args.zip typeargs

mutual

/-- `bind_typevars` (typechecker.rs:194-221): replace type variables found in
the given bindings table, consulting the cache for bound variables, cloning
everything else.  The recursion through cache bindings carries artifact
fuel. -/
def bind_typevars (fuel : Nat) (t : Ty) (type_bindings : List (Nat × Ty)) (cache : Cache) :
    Option Ty :=
  match fuel with
  | 0 => none
  | f+1 =>
    match t with
    | .Primitive p => some (.Primitive p)
    | .TypeVariable id => bind_typevar f id type_bindings Ty.TypeVariable cache
    | .Function ps r e v =>
      match bind_typevars_list f ps type_bindings cache with
      | none => none
      | some ps' =>
        match bind_typevars f r type_bindings cache with
        | none => none
        | some r' =>
          match bind_typevars f e type_bindings cache with
          | none => none
          | some e' => some (.Function ps' r' e' v)
    | .UserDefined id => some (.UserDefined id)
    | .Ref lifetime =>
      match bind_typevar f lifetime type_bindings Ty.Ref cache with
      | some (.TypeVariable new_lifetime) => some (.Ref new_lifetime)
      | some (.Ref new_lifetime) => some (.Ref new_lifetime)
      | some _ => none
      | none => none
    | .TypeApplication c args =>
      match bind_typevars f c type_bindings cache with
      | none => none
      | some c' =>
        match bind_typevars_list f args type_bindings cache with
        | none => none
        | some args' => some (.TypeApplication c' args')
termination_by structural fuel

/-- `bind_typevar` (typechecker.rs:226-243): the bindings table is consulted
before the cache; an unbound variable missing from the table is rebuilt with
the given constructor. -/
def bind_typevar (fuel id : Nat) (type_bindings : List (Nat × Ty)) (default : Nat → Ty)
    (cache : Cache) : Option Ty :=
  match fuel with
  | 0 => none
  | f+1 =>
    match lookupA type_bindings id with
    | some binding => some binding
    | none =>
      match getB cache.type_bindings id with
      | .Bound t => bind_typevars f t type_bindings cache
      | .Unbound _ _ => some (default id)
termination_by structural fuel

/-- `bind_typevars` mapped over a list of types. -/
def bind_typevars_list (fuel : Nat) (ts : List Ty) (type_bindings : List (Nat × Ty))
    (cache : Cache) : Option (List Ty) :=
  match fuel with
  | 0 => none
  | f+1 =>
    match ts with
    | [] => some []
    | t :: rest =>
      match bind_typevars f t type_bindings cache with
      | none => none
      | some t' =>
        match bind_typevars_list f rest type_bindings cache with
        | none => none
        | some rest' => some (t' :: rest')
termination_by structural fuel

end

/-! ## Monomorphisation (src/hir/monomorphisation.rs) -/

/-- `DEFAULT_INTEGER_KIND` (monomorphisation.rs:16). -/
def DEFAULT_INTEGER_KIND : HirIntegerKind := .I32

/-- `UNBOUND_TYPE` (monomorphisation.rs:18-19): the type most type variables
are bound to if still unbound at codegen time. -/
def UNBOUND_TYPE : Ty := .Primitive .UnitType

/-- `RECURSION_LIMIT` (monomorphisation.rs:22): the fixed recursion bound for
following type variable mappings. -/
def RECURSION_LIMIT : Nat := 500

/-- `Context::ptr_size` (monomorphisation.rs:257-259): the target word size;
the sources compile for a 64-bit target. -/
def ptr_size : Nat := 8

/-- The IR's integer kinds are shared with `HirIntegerKind` above;
`hir::types::PrimitiveType`. -/
inductive HirPrimitiveType where
  | Integer (kind : HirIntegerKind)
  | Float
  | Char
  | Boolean
  | Unit
  | Pointer
deriving DecidableEq

/-- `hir::types::Type`: the monomorphised IR types. -/
inductive HirType where
  | Primitive (p : HirPrimitiveType)
  | Function (parameters : List HirType) (return_type : HirType) (is_varargs : Bool)
  | Tuple (fields : List HirType)

mutual

/-- Decidable structural equality on `HirType`. -/
def decEqHirType : (a b : HirType) → Decidable (a = b)
  | .Primitive p, .Primitive q =>
      if h : p = q then .isTrue (by rw [h]) else .isFalse (fun hh => h (by cases hh; rfl))
  | .Function ps r v, .Function ps' r' v' =>
      match decEqHirTypeList ps ps' with
      | .isFalse h => .isFalse (fun hh => h (by cases hh; rfl))
      | .isTrue h1 =>
        match decEqHirType r r' with
        | .isFalse h => .isFalse (fun hh => h (by cases hh; rfl))
        | .isTrue h2 =>
          if h3 : v = v' then .isTrue (by rw [h1, h2, h3])
          else .isFalse (fun hh => h3 (by cases hh; rfl))
  | .Tuple fs, .Tuple fs' =>
      match decEqHirTypeList fs fs' with
      | .isFalse h => .isFalse (fun hh => h (by cases hh; rfl))
      | .isTrue h1 => .isTrue (by rw [h1])
  | .Primitive _, .Function _ _ _ => .isFalse (fun h => HirType.noConfusion h)
  | .Primitive _, .Tuple _ => .isFalse (fun h => HirType.noConfusion h)
  | .Function _ _ _, .Primitive _ => .isFalse (fun h => HirType.noConfusion h)
  | .Function _ _ _, .Tuple _ => .isFalse (fun h => HirType.noConfusion h)
  | .Tuple _, .Primitive _ => .isFalse (fun h => HirType.noConfusion h)
  | .Tuple _, .Function _ _ _ => .isFalse (fun h => HirType.noConfusion h)

/-- Decidable equality on lists of IR types. -/
def decEqHirTypeList : (a b : List HirType) → Decidable (a = b)
  | [], [] => .isTrue rfl
  | [], _ :: _ => .isFalse (fun h => List.noConfusion h)
  | _ :: _, [] => .isFalse (fun h => List.noConfusion h)
  | x :: xs, y :: ys =>
      match decEqHirType x y with
      | .isFalse h => .isFalse (fun hh => h (by cases hh; rfl))
      | .isTrue h1 =>
        match decEqHirTypeList xs ys with
        | .isFalse h => .isFalse (fun hh => h (by cases hh; rfl))
        | .isTrue h2 => .isTrue (by rw [h1, h2])

end

instance : DecidableEq HirType := decEqHirType

/-- `Context::tag_type` (monomorphisation.rs:351-353): the u8 tag of an
unoptimized tagged union. -/
def tag_type : HirType := .Primitive (.Integer .U8)

/-- The monomorphisation `Context` state the verified functions touch:
the cache, the stack of monomorphisation bindings (innermost last, searched
in reverse), and the memo table of converted user-defined types. -/
structure Context where
  cache : Cache
  monomorphisation_bindings : List (List (Nat × Ty))
  types : List ((Nat × List Ty) × HirType)
deriving DecidableEq

/-- Insert into the `Context::types` memo table (`HashMap::insert`). -/
def Context.insertTypes (ctx : Context) (k : Nat × List Ty) (t : HirType) : Context :=
  { ctx with types := (k, t) :: ctx.types.filter (fun p => ¬ p.1 = k) }

/-- Result of `Context::find_binding` (monomorphisation.rs:139-162):
`Ok(&Type)`, `Err(TypeVariableId)` for an unbound variable, or the `panic!`
raised when the recursion limit hits zero. -/
inductive FindBindingResult where
  | ok (t : Ty)
  | unbound (id : Nat)
  | panicked
deriving DecidableEq

/-- The scan of the `for bindings in self.monomorphisation_bindings.iter().rev()`
loop of `Context::find_binding`: the loop acts on the first map of the stack
that contains the id (every iteration either returns or finds nothing), so
it is the lookup in the first containing map. -/
def find_binding_in_stack (stack : List (List (Nat × Ty))) (id : Nat) : Option Ty :=
  match stack with
  | [] => none
  | m :: rest =>
    match lookupA m id with
    | some binding => some binding
    | none => find_binding_in_stack rest id

/-- `Context::find_binding` (monomorphisation.rs:139-162): follow the cache
binding chain, then the stack of monomorphisation bindings in reverse; the
fuel is the genuine `fuel` parameter of the source, which panics at 0. -/
def Context.find_binding (ctx : Context) (id : Nat) (fuel : Nat) : FindBindingResult :=
  match fuel with
  | 0 => .panicked
  | f+1 =>
    match getB ctx.cache.type_bindings id with
    | .Bound (.TypeVariable id2) => ctx.find_binding id2 f
    | .Bound (.Ref id2) => ctx.find_binding id2 f
    | .Bound binding => .ok binding
    | .Unbound _ _ =>
      match find_binding_in_stack ctx.monomorphisation_bindings.reverse id with
      | some (.TypeVariable id2) => ctx.find_binding id2 f
      | some (.Ref id2) => ctx.find_binding id2 f
      | some binding => .ok binding
      | none => .unbound id

/-- `Context::follow_bindings_shallow` (monomorphisation.rs:166-173). -/
def Context.follow_bindings_shallow (ctx : Context) (t : Ty) : FindBindingResult :=
  match t with
  | .TypeVariable id => ctx.find_binding id RECURSION_LIMIT
  | _ => .ok t

mutual

/-- `Context::follow_all_bindings_inner` (monomorphisation.rs:181-212):
recursively replace every bound type variable by what it is bound to.  The
fuel is the genuine `fuel` of the source; `none` is its `panic!`. -/
def Context.follow_all_bindings_inner (ctx : Context) (fuel : Nat) (t : Ty) : Option Ty :=
  match fuel with
  | 0 => none
  | f+1 =>
    match t with
    | .TypeVariable id =>
      match ctx.find_binding id f with
      | .ok binding => ctx.follow_all_bindings_inner f binding
      | .unbound i => some (.TypeVariable i)
      | .panicked => none
    | .Primitive _ => some t
    | .Function ps r e v =>
      match follow_all_bindings_list ctx f ps with
      | none => none
      | some ps' =>
        match ctx.follow_all_bindings_inner f r with
        | none => none
        | some r' =>
          match ctx.follow_all_bindings_inner f e with
          | none => none
          | some e' => some (.Function ps' r' e' v)
    | .UserDefined _ => some t
    | .TypeApplication c args =>
      match ctx.follow_all_bindings_inner f c with
      | none => none
      | some c' =>
        match follow_all_bindings_list ctx f args with
        | none => none
        | some args' => some (.TypeApplication c' args')
    | .Ref _ => some t
termination_by structural fuel

/-- `follow_all_bindings_inner` mapped over a list of types. -/
def follow_all_bindings_list (ctx : Context) (fuel : Nat) (ts : List Ty) : Option (List Ty) :=
  match fuel with
  | 0 => none
  | f+1 =>
    match ts with
    | [] => some []
    | t :: rest =>
      match ctx.follow_all_bindings_inner f t with
      | none => none
      | some t' =>
        match follow_all_bindings_list ctx f rest with
        | none => none
        | some rest' => some (t' :: rest')
termination_by structural fuel

end

/-- `Context::follow_all_bindings` (monomorphisation.rs:177-179). -/
def Context.follow_all_bindings (ctx : Context) (t : Ty) : Option Ty :=
  ctx.follow_all_bindings_inner RECURSION_LIMIT t

/-- `Context::convert_integer_kind` (monomorphisation.rs:485-512): `Unknown`
and still-unbound `Inferred` kinds default to `DEFAULT_INTEGER_KIND`; a bound
`Inferred` kind converts its binding's integer kind; concrete kinds map to
themselves.  The fuel is an artifact for the recursion through `Inferred`
chains; the `unreachable!` on a non-integer binding is `none`. -/
def Context.convert_integer_kind (ctx : Context) (fuel : Nat) (kind : TokenIntegerKind) :
    Option HirIntegerKind :=
  match fuel with
  | 0 => none
  | f+1 =>
    match kind with
    | .Unknown => some DEFAULT_INTEGER_KIND
    | .Inferred id =>
      match ctx.find_binding id RECURSION_LIMIT with
      | .ok (.Primitive (.IntegerType k)) => ctx.convert_integer_kind f k
      | .unbound _ => some DEFAULT_INTEGER_KIND
      | .ok _ => none
      | .panicked => none
    | .I8 => some .I8
    | .I16 => some .I16
    | .I32 => some .I32
    | .I64 => some .I64
    | .Isz => some .Isz
    | .U8 => some .U8
    | .U16 => some .U16
    | .U32 => some .U32
    | .U64 => some .U64
    | .Usz => some .Usz

/-- The bit width of a concrete IR integer kind, as matched in
`Context::integer_bit_count` (monomorphisation.rs:265-274). -/
def bit_count : HirIntegerKind → Nat
  | .I8 | .U8 => 8
  | .I16 | .U16 => 16
  | .I32 | .U32 => 32
  | .I64 | .U64 => 64
  | .Isz | .Usz => ptr_size * 8

/-- `Context::integer_bit_count` (monomorphisation.rs:265-274). -/
def Context.integer_bit_count (ctx : Context) (fuel : Nat) (kind : TokenIntegerKind) :
    Option Nat :=
  (ctx.convert_integer_kind fuel kind).map bit_count

/-- Apply `bind_typevars` to the argument types of each variant, as the first
statement of `find_largest_union_variant` (monomorphisation.rs:344-345). -/
def bind_variant_args (fuel : Nat) (variants : List TypeConstructorInfo)
    (bindings : List (Nat × Ty)) (cache : Cache) : Option (List (List Ty)) :=
  match variants with
  | [] => some []
  | v :: rest =>
    match bind_typevars_list fuel v.args bindings cache with
    | none => none
    | some ts =>
      match bind_variant_args fuel rest bindings cache with
      | none => none
      | some rest' => some (ts :: rest')

/-- One step of `Iterator::max_by_key`: keep the element with the larger key,
the later one on ties (Rust's `max_by_key` returns the last maximum). -/
def max_by_key_step (acc : Option (List Ty × Nat)) (p : List Ty × Nat) :
    Option (List Ty × Nat) :=
  match acc with
  | none => some p
  | some q => if q.2 ≤ p.2 then some p else some q

/-- `Iterator::max_by_key` over variants paired with their computed sizes:
`none` on an empty list, otherwise the (last) variant of maximal size. -/
def max_by_key (pairs : List (List Ty × Nat)) : Option (List Ty) :=
  (pairs.foldl max_by_key_step none).map Prod.fst

mutual

/-- `Context::size_of_type` (monomorphisation.rs:276-303): the fixed size
table.  Integer sizes are their bit width over 8; float is 8; char, bool and
unit are 1; pointers, functions and refs are the target word size; type
variables follow their binding (`UNBOUND_TYPE`, i.e. unit, when unbound) and
user-defined types recurse into their layout.  The fuel is an artifact of the
embedding (the source recursion has no bound of its own beyond the
`RECURSION_LIMIT` it passes to `find_binding`) and is consumed only here, one
unit per `size_of_type` call; `none` means no result. -/
def Context.size_of_type (ctx : Context) (fuel : Nat) (t : Ty) : Option Nat :=
  match fuel with
  | 0 => none
  | f+1 =>
    match t with
    | .Primitive (.IntegerType kind) => (ctx.integer_bit_count f kind).map (fun b => b / 8)
    | .Primitive .FloatType => some 8
    | .Primitive .CharType => some 1
    | .Primitive .BooleanType => some 1
    | .Primitive .UnitType => some 1
    | .Primitive .Ptr => some ptr_size
    | .Function _ _ _ _ => some ptr_size
    | .TypeVariable id =>
      match ctx.find_binding id RECURSION_LIMIT with
      | .ok binding => ctx.size_of_type f binding
      | .unbound _ => ctx.size_of_type f UNBOUND_TYPE
      | .panicked => none
    | .UserDefined id => ctx.size_of_user_defined_type f id []
    | .TypeApplication c args =>
      match c with
      | .UserDefined id => ctx.size_of_user_defined_type f id args
      | _ => none
    | .Ref _ => some ptr_size
termination_by (fuel, 0, 0)

/-- The sums `variant.iter().map(|f| self.size_of_type(f)).sum()` used by
struct and union sizing. -/
def Context.size_of_type_sum (ctx : Context) (fuel : Nat) (ts : List Ty) : Option Nat :=
  match ts with
  | [] => some 0
  | t :: rest =>
    match ctx.size_of_type fuel t with
    | none => none
    | some s =>
      match ctx.size_of_type_sum fuel rest with
      | none => none
      | some s' => some (s + s')
termination_by (fuel, 1, ts.length)

/-- `Context::size_of_user_defined_type` (monomorphisation.rs:240-254): the
kind-check assertion failure and the unreachable `Alias`/`Unknown` bodies are
`none`. -/
def Context.size_of_user_defined_type (ctx : Context) (fuel id : Nat) (args : List Ty) :
    Option Nat :=
  let info := getTypeInfo ctx.cache id
  if info.args.length = args.length then
    match info.body with
    | .Union variants => ctx.size_of_union_type fuel info variants args
    | .Struct fields => ctx.size_of_struct_type fuel info fields args
    | .Alias _ => none
    | .Unknown => none
  else none
termination_by (fuel, 5, 0)

/-- `Context::size_of_struct_type` (monomorphisation.rs:214-224): sum of the
field sizes after substituting the type application's bindings. -/
def Context.size_of_struct_type (ctx : Context) (fuel : Nat) (info : TypeInfo)
    (fields : List FieldInfo) (args : List Ty) : Option Nat :=
  let bindings := type_application_bindings info.args args
  match bind_typevars_list fuel (fields.map FieldInfo.field_type) bindings ctx.cache with
  | none => none
  | some field_types => ctx.size_of_type_sum fuel field_types
termination_by (fuel, 4, 0)

/-- `Context::size_of_union_type` (monomorphisation.rs:226-238): 0 for a
void type, otherwise the size of the largest variant plus 1 for the tag. -/
def Context.size_of_union_type (ctx : Context) (fuel : Nat) (info : TypeInfo)
    (variants : List TypeConstructorInfo) (args : List Ty) : Option Nat :=
  let bindings := type_application_bindings info.args args
  match ctx.find_largest_union_variant fuel variants bindings with
  | none => none
  | some none => some 0
  | some (some variant) =>
    match ctx.size_of_type_sum fuel variant with
    | none => none
    | some s => some (s + 1)
termination_by (fuel, 4, 0)

/-- `Context::find_largest_union_variant` (monomorphisation.rs:341-348):
substitute the bindings into each variant's argument types and take the
variant of maximal summed size (`none` in the inner option for an empty
variant list). -/
def Context.find_largest_union_variant (ctx : Context) (fuel : Nat)
    (variants : List TypeConstructorInfo) (bindings : List (Nat × Ty)) :
    Option (Option (List Ty)) :=
  match bind_variant_args fuel variants bindings ctx.cache with
  | none => none
  | some bound =>
    match ctx.attach_sizes fuel bound with
    | none => none
    | some pairs => some (max_by_key pairs)
termination_by (fuel, 3, 0)

/-- Pair each bound variant with its summed size (the keys computed by
`max_by_key` in `find_largest_union_variant`). -/
def Context.attach_sizes (ctx : Context) (fuel : Nat) (variants : List (List Ty)) :
    Option (List (List Ty × Nat)) :=
  match variants with
  | [] => some []
  | v :: rest =>
    match ctx.size_of_type_sum fuel v with
    | none => none
    | some s =>
      match ctx.attach_sizes fuel rest with
      | none => none
      | some rest' => some ((v, s) :: rest')
termination_by (fuel, 2, variants.length)

end

/-- `Type::is_unit`.  Modelled from the spec: `types/mod.rs` is not under
`src/`; per the spec a function's environment type is "unit when the function
is not a closure", so `is_unit` recognises the unit primitive type. -/
def is_unit (t : Ty) : Bool :=
  match t with
  | .Primitive .UnitType => true
  | _ => false

/-- `Context::empty_closure_environment` (monomorphisation.rs:400-402):
shallowly follow the environment type and test it for unit; `map_or(false, …)`
turns an unbound variable into `false`, while a recursion-limit abort inside
the follow propagates (`none`). -/
def Context.empty_closure_environment (ctx : Context) (environment : Ty) : Option Bool :=
  match ctx.follow_bindings_shallow environment with
  | .ok t => some (is_unit t)
  | .unbound _ => some false
  | .panicked => none

/-- The `fmap(args, |arg| self.follow_all_bindings(arg))` of
`convert_type_inner`'s type application case: each element gets a fresh
`RECURSION_LIMIT`. -/
def follow_all_bindings_each (ctx : Context) (ts : List Ty) : Option (List Ty) :=
  match ts with
  | [] => some []
  | t :: rest =>
    match ctx.follow_all_bindings t with
    | none => none
    | some t' =>
      match follow_all_bindings_each ctx rest with
      | none => none
      | some rest' => some (t' :: rest')

/-- `Context::convert_primitive_type` (monomorphisation.rs:305-318). -/
def Context.convert_primitive_type (ctx : Context) (fuel : Nat) (p : PrimitiveType) :
    Option HirType :=
  match p with
  | .IntegerType kind => (ctx.convert_integer_kind fuel kind).map (fun k => .Primitive (.Integer k))
  | .FloatType => some (.Primitive .Float)
  | .CharType => some (.Primitive .Char)
  | .BooleanType => some (.Primitive .Boolean)
  | .UnitType => some (.Primitive .Unit)
  | .Ptr => some (.Primitive .Pointer)

mutual

/-- `Context::convert_type_inner` (monomorphisation.rs:409-483): monomorphise
a `types::Type` into an IR type with no generics.  The fuel is the genuine
`fuel` parameter of the source (seeded with `RECURSION_LIMIT`); `none` is its
`panic!`/`unreachable!`.  A type variable that is still unbound after
following all bindings converts as `UNBOUND_TYPE` (the unit type).  The memo
table `types` is threaded through, as the source mutates it. -/
def Context.convert_type_inner (ctx : Context) (fuel : Nat) (t : Ty) :
    Option (HirType × Context) :=
  match fuel with
  | 0 => none
  | f+1 =>
    match t with
    | .Primitive p => (ctx.convert_primitive_type f p).map (fun t' => (t', ctx))
    | .Function ps r e v =>
      match convert_type_list ctx f ps with
      | none => none
      | some (ps', ctx1) =>
        match ctx1.convert_type_inner f r with
        | none => none
        | some (r', ctx2) =>
          match ctx2.empty_closure_environment e with
          | none => none
          | some true => some (.Function ps' r' v, ctx2)
          | some false =>
            match ctx2.convert_type_inner f e with
            | none => none
            | some (e', ctx3) => some (.Tuple [.Function (ps' ++ [e']) r' v, e'], ctx3)
    | .TypeVariable id =>
      match ctx.find_binding id f with
      | .ok binding => ctx.convert_type_inner f binding
      | .unbound _ => ctx.convert_type_inner f UNBOUND_TYPE
      | .panicked => none
    | .UserDefined id => ctx.convert_user_defined_type f id []
    | .TypeApplication c args =>
      match follow_all_bindings_each ctx args with
      | none => none
      | some args' =>
        match ctx.follow_bindings_shallow c with
        | .ok (.Primitive .Ptr) => some (.Primitive .Pointer, ctx)
        | .ok (.Ref _) => some (.Primitive .Pointer, ctx)
        | .ok (.UserDefined id) => ctx.convert_user_defined_type f id args'
        | .ok _ => none
        | .unbound _ => none
        | .panicked => none
    | .Ref _ => none
termination_by structural fuel

/-- `convert_type_inner` mapped over a list of types, threading the memo
table. -/
def convert_type_list (ctx : Context) (fuel : Nat) (ts : List Ty) :
    Option (List HirType × Context) :=
  match fuel with
  | 0 => none
  | f+1 =>
    match ts with
    | [] => some ([], ctx)
    | t :: rest =>
      match ctx.convert_type_inner f t with
      | none => none
      | some (t', ctx') =>
        match convert_type_list ctx' f rest with
        | none => none
        | some (rest', ctx'') => some (t' :: rest', ctx'')
termination_by structural fuel

/-- `Context::convert_user_defined_type` (monomorphisation.rs:378-398): the
kind-check assertion failure is `none`; a memoised conversion is returned
directly; `Alias`/`Unknown` bodies are unreachable. -/
def Context.convert_user_defined_type (ctx : Context) (fuel id : Nat) (args : List Ty) :
    Option (HirType × Context) :=
  match fuel with
  | 0 => none
  | f+1 =>
    let info := getTypeInfo ctx.cache id
    if info.args.length = args.length then
      match lookupA ctx.types (id, args) with
      | some t => some (t, ctx)
      | none =>
        match info.body with
        | .Union variants => ctx.convert_union_type f id info variants args
        | .Struct fields => ctx.convert_struct_type f id info fields args
        | .Alias _ => none
        | .Unknown => none
    else none
termination_by structural fuel

/-- `Context::convert_struct_type` (monomorphisation.rs:320-336): memoise an
empty tuple placeholder, convert the bound fields, then memoise and return
the field tuple. -/
def Context.convert_struct_type (ctx : Context) (fuel id : Nat) (info : TypeInfo)
    (fields : List FieldInfo) (args : List Ty) : Option (HirType × Context) :=
  match fuel with
  | 0 => none
  | f+1 =>
    let bindings := type_application_bindings info.args args
    let ctx1 := ctx.insertTypes (id, args) (.Tuple [])
    match convert_bound_fields ctx1 f (fields.map FieldInfo.field_type) bindings with
    | none => none
    | some (fs, ctx2) =>
      let t := HirType.Tuple fs
      some (t, ctx2.insertTypes (id, args) t)
termination_by structural fuel

/-- The field loop of `convert_struct_type`: substitute the bindings into
each field type, then convert it. -/
def convert_bound_fields (ctx : Context) (fuel : Nat) (fields : List Ty)
    (bindings : List (Nat × Ty)) : Option (List HirType × Context) :=
  match fuel with
  | 0 => none
  | f+1 =>
    match fields with
    | [] => some ([], ctx)
    | ft :: rest =>
      match bind_typevars f ft bindings ctx.cache with
      | none => none
      | some ft' =>
        match ctx.convert_type_inner f ft' with
        | none => none
        | some (t', ctx') =>
          match convert_bound_fields ctx' f rest bindings with
          | none => none
          | some (rest', ctx'') => some (t' :: rest', ctx'')
termination_by structural fuel

/-- `Context::convert_union_type` (monomorphisation.rs:355-376): an empty
union converts to the empty tuple; otherwise memoise a placeholder, convert
the largest variant's field types, and build the tuple headed by the u8
tag. -/
def Context.convert_union_type (ctx : Context) (fuel id : Nat) (info : TypeInfo)
    (variants : List TypeConstructorInfo) (args : List Ty) : Option (HirType × Context) :=
  match fuel with
  | 0 => none
  | f+1 =>
    let bindings := type_application_bindings info.args args
    match ctx.find_largest_union_variant f variants bindings with
    | none => none
    | some none => some (.Tuple [], ctx.insertTypes (id, args) (.Tuple []))
    | some (some variant) =>
      let ctx1 := ctx.insertTypes (id, args) (.Tuple [])
      match convert_type_list ctx1 f variant with
      | none => none
      | some (fs, ctx2) =>
        let t := HirType.Tuple (tag_type :: fs)
        some (t, ctx2.insertTypes (id, args) t)
termination_by structural fuel

end

/-- `Context::convert_type` (monomorphisation.rs:404-407). -/
def Context.convert_type (ctx : Context) (t : Ty) : Option (HirType × Context) :=
  ctx.convert_type_inner RECURSION_LIMIT t

/-! ## Refinement bridge (src/refine/context.rs)

The refine module predates the rest of the sources and uses an older shape of
the `Type` enum whose primitive type has no raw pointer variant; only the
primitive-to-sort translation is the subject of a claim. -/

/-- The primitive types as matched by `primitive_type_to_sort`
(refine/context.rs:102-111). -/
inductive RefinePrimitiveType where
  | IntegerType (kind : TokenIntegerKind)
  | FloatType
  | CharType
  | BooleanType
  | UnitType
deriving DecidableEq

/-- The SMT sorts the primitive translation can produce. -/
inductive Z3Sort where
  | int
  | bool
  | real
deriving DecidableEq

/-- `z3::Context::int_sort`: the SMT Int sort. -/
def int_sort : Z3Sort := .int

/-- `z3::Context::bool_sort`: the SMT Bool sort. -/
def bool_sort : Z3Sort := .bool

/-- `z3::Context::double_sort`.  Modelled from the spec: the z3 wrapper
(`src/refine/z3`) is not under `src/`; the spec maps the float type to the
SMT Real sort, so `double_sort` denotes the Real sort here. -/
def double_sort : Z3Sort := .real

/-- `RefinementContext::primitive_type_to_sort` (refine/context.rs:102-111). -/
def primitive_type_to_sort (p : RefinePrimitiveType) : Z3Sort :=
  match p with
  | .IntegerType _ => int_sort
  | .FloatType => double_sort
  | .CharType => int_sort
  | .BooleanType => bool_sort
  | .UnitType => bool_sort

/-! ## Inference rules under claim (src/types/typechecker.rs, `Inferable`)

The two node rules a claim is about are embedded over a small inference
state.  Trait constraints are opaque to these claims and are represented by
the id of the constrained type variable. -/

/-- The state an inference rule touches: the cache, the current let-binding
level (`CURRENT_LEVEL`), the fresh variable-occurrence counter, and the
global error count (`get_error_count`; the `error!` macro increments it). -/
structure InferState where
  cache : Cache
  current_level : Nat
  next_variable : Nat
  errors : Nat
deriving DecidableEq

/-- The `(Type, TraitConstraints)` returned by `infer_impl`, together with
the state after the rule ran. -/
structure InferResult where
  typ : Ty
  traits : List Nat
  st : InferState
deriving DecidableEq

/-- `next_type_variable_id`/`cache.next_type_variable_id`.  Modelled from the
spec: the cache module (`cache.rs`, identifier tables with global counters
for fresh identifiers) is not under `src/`; a fresh type variable is interned
as a new unbound entry at the current let-binding level. -/
def next_type_variable_id (st : InferState) : Nat × InferState :=
  (st.cache.type_bindings.length,
   { st with cache := ⟨st.cache.type_bindings ++ [.Unbound st.current_level 0],
                      st.cache.type_infos⟩ })

/-- `cache.push_variable`.  Modelled from the spec: interning of variable
occurrences in the cache module, used for the constraint callsite. -/
def push_variable (st : InferState) : Nat × InferState :=
  (st.next_variable, { st with next_variable := st.next_variable + 1 })

/-- The integer case of `ast::Literal::infer_impl` (typechecker.rs:1139-1152):
an `Unknown`-kind literal allocates a fresh type variable, adds an `Int`
constraint on it (represented by the constrained variable id) and mutates the
literal's kind to `Inferred`; a literal with a known kind returns that
primitive integer type.  Returns (type, constraints, new literal kind,
state). -/
def literal_infer_integer (kind : TokenIntegerKind) (st : InferState) :
    Ty × List Nat × TokenIntegerKind × InferState :=
  match kind with
  | .Unknown =>
    let r1 := next_type_variable_id st
    let r2 := push_variable r1.2
    (.TypeVariable r1.1, [r1.1], .Inferred r1.1, r2.2)
  | k => (.Primitive (.IntegerType k), [], k, st)

/-- `ast::Assignment::infer_impl` (typechecker.rs:1580-1586), with the
recursive `infer` calls on the two sides abstracted as oracles: infer the
left-hand side, then the right-hand side on the resulting state, append the
constraint lists, and return the unit type.  The source body contains no
other operation: no diagnostic is emitted and the left-hand side is not
inspected for mutability. -/
def assignment_infer_impl (infer_lhs infer_rhs : InferState → InferResult)
    (st : InferState) : InferResult :=
  let lhs_res := infer_lhs st
  let rhs_res := infer_rhs lhs_res.st
  ⟨.Primitive .UnitType, lhs_res.traits ++ rhs_res.traits, rhs_res.st⟩

/-! ## Specification-side notions used by the theorems -/

mutual

/-- The type variable ids occurring syntactically in a type (including `Ref`
lifetimes, which unify as ordinary type variables). -/
def tvars : Ty → List Nat
  | .Primitive _ => []
  | .UserDefined _ => []
  | .TypeVariable id => [id]
  | .Ref id => [id]
  | .Function ps r e _ => tvars_list ps ++ tvars r ++ tvars e
  | .TypeApplication c args => tvars c ++ tvars_list args

/-- `tvars` over a list of types. -/
def tvars_list : List Ty → List Nat
  | [] => []
  | t :: ts => tvars t ++ tvars_list ts

end

/-- No binding of the accumulator maps a variable to a term syntactically
containing that same variable. -/
def SelfFree (bnd : UnificationBindings) : Prop :=
  ∀ p ∈ bnd.bindings, p.1 ∉ tvars p.2

/-- The accumulator holds at most one binding per variable (the `HashMap`
invariant). -/
def NodupKeys (l : List (Nat × Ty)) : Prop :=
  l.Pairwise (fun a b => a.1 ≠ b.1)

/-- The well-formedness invariant of the accumulator maintained by
unification. -/
def GoodBindings (bnd : UnificationBindings) : Prop :=
  NodupKeys bnd.bindings ∧ SelfFree bnd

/-- Specification-side pairwise parameter unification, following the spec's
words: parameters are unified pairwise and the extra parameters of the longer
side are accepted without further unification. -/
def try_unify_params_pairwise (fuel : Nat) (ps1 ps2 : List Ty) (bnd : UnificationBindings)
    (cache : Cache) : Option (UnifyOutcome × UnificationBindings × Cache) :=
  match fuel with
  | 0 => none
  | f+1 =>
    match ps1, ps2 with
    | [], _ => some (.ok, bnd, cache)
    | _, [] => some (.ok, bnd, cache)
    | a :: rest1, b :: rest2 =>
      match try_unify_with_bindings f a b bnd cache with
      | none => none
      | some (.err e, bnd', cache') => some (.err e, bnd', cache')
      | some (.ok, bnd', cache') => try_unify_params_pairwise f rest1 rest2 bnd' cache'

/-- Specification-side unification of two function types, following the
spec's words: when the parameter counts differ, unification may proceed only
when one side is varargs and the other side has at least as many parameters
as the varargs side, and otherwise fails with the argument-count diagnostic;
when it proceeds, parameters unify pairwise, then the return types, then the
environments. -/
def unify_function_types_spec (fuel : Nat) (ps1 : List Ty) (r1 e1 : Ty) (v1 : Bool)
    (ps2 : List Ty) (r2 e2 : Ty) (v2 : Bool) (bnd : UnificationBindings) (cache : Cache) :
    Option (UnifyOutcome × UnificationBindings × Cache) :=
  if ps1.length = ps2.length ∨ (v1 = true ∧ ps1.length ≤ ps2.length) ∨
     (v2 = true ∧ ps2.length ≤ ps1.length) then
    match try_unify_params_pairwise fuel ps1 ps2 bnd cache with
    | none => none
    | some (.err e, bnd', cache') => some (.err e, bnd', cache')
    | some (.ok, bnd', cache') =>
      match try_unify_with_bindings fuel r1 r2 bnd' cache' with
      | none => none
      | some (.err e, bnd'', cache'') => some (.err e, bnd'', cache'')
      | some (.ok, bnd'', cache'') => try_unify_with_bindings fuel e1 e2 bnd'' cache''
  else some (.err .argCount, bnd, cache)

/-! ## Concrete inputs used by counterexamples and witnesses -/

/-- A cache with the single type variable 0, unbound at level 1. -/
def cacheOneVar : Cache := ⟨[.Unbound 1 0], []⟩

/-- A function type mentioning type variable 0: `∅ → tv0 (env: unit)`. -/
def tyMentioningVar0 : Ty := .Function [] (.TypeVariable 0) (.Primitive .UnitType) false

/-- A cache with type variable 0 unbound at level 3 and type variable 1
unbound at level 5. -/
def cacheTwoLevels : Cache := ⟨[.Unbound 3 0, .Unbound 5 0], []⟩

/-- A cache whose bindings form a chain of 502 bound variables:
variable `i` is bound to variable `i+1` for `i < 501`, and variable 501 is
bound to the unit type. -/
def chainCache : Cache :=
  ⟨(List.range 502).map
     (fun i => if i + 1 < 502 then .Bound (.TypeVariable (i+1)) else .Bound (.Primitive .UnitType)),
   []⟩

/-- A monomorphisation context over `chainCache` with no extra bindings. -/
def chainContext : Context := ⟨chainCache, [], []⟩

/-- A monomorphisation context over `cacheOneVar` with no extra bindings. -/
def ctxOneVar : Context := ⟨cacheOneVar, [], []⟩

/-- A one-binding monomorphisation context: variable 0 bound to `u16`. -/
def ctxBoundInt : Context := ⟨⟨[.Bound (.Primitive (.IntegerType .U16))], []⟩, [], []⟩

/-- The concrete (non-`Unknown`, non-`Inferred`) token integer kind
corresponding to each IR integer kind. -/
def token_of_concrete : HirIntegerKind → TokenIntegerKind
  | .I8 => .I8
  | .I16 => .I16
  | .I32 => .I32
  | .I64 => .I64
  | .Isz => .Isz
  | .U8 => .U8
  | .U16 => .U16
  | .U32 => .U32
  | .U64 => .U64
  | .Usz => .Usz

/-- The variants of an `Option i32`-like sum type:
`None` with no fields, `Some` with one `i32` field. -/
def optionVariants : List TypeConstructorInfo := [⟨[]⟩, ⟨[.Primitive (.IntegerType .I32)]⟩]

/-- The type info of the `Option i32`-like sum type. -/
def optionInfo : TypeInfo := ⟨[], .Union optionVariants⟩

/-- A monomorphisation context whose type info 0 is `optionInfo`. -/
def ctxOption : Context := ⟨⟨[], [optionInfo]⟩, [], []⟩

/-- An inference state with an empty cache at let-binding level 2. -/
def stEmpty : InferState := ⟨⟨[], []⟩, 2, 0, 0⟩

/-- An inference oracle standing for the sub-inference of a non-mutable
`bool`-typed variable: it returns the bool type, no constraints, and leaves
the state (in particular the error count) untouched. -/
def inferBoolVar : InferState → InferResult :=
  fun st => ⟨.Primitive .BooleanType, [], st⟩

/-! ## Helper lemmas -/

theorem setB_length (l : List TypeBinding) (i : Nat) (b : TypeBinding) :
    (setB l i b).length = l.length := by
  induction l generalizing i with
  | nil => simp [setB]
  | cons x rest ih =>
    cases i with
    | zero => simp [setB]
    | succ n => simp [setB, ih]

theorem getB_setB_eq (l : List TypeBinding) (i : Nat) (b : TypeBinding)
    (h : i < l.length) : getB (setB l i b) i = b := by
  induction l generalizing i with
  | nil => simp at h
  | cons x rest ih =>
    cases i with
    | zero => simp [setB, getB]
    | succ n =>
      simp only [setB, getB]
      exact ih n (by simpa using h)

theorem getB_setB_ne (l : List TypeBinding) (i j : Nat) (b : TypeBinding)
    (h : i ≠ j) : getB (setB l i b) j = getB l j := by
  induction l generalizing i j with
  | nil => simp [setB]
  | cons x rest ih =>
    cases i with
    | zero =>
      cases j with
      | zero => exact absurd rfl h
      | succ m => simp [setB, getB]
    | succ n =>
      cases j with
      | zero => simp [setB, getB]
      | succ m => simp only [setB, getB]; exact ih n m (by omega)

theorem lookupA_none_not_mem {α : Type} (l : List (Nat × α)) (k : Nat)
    (h : lookupA l k = none) : ∀ v, (k, v) ∉ l := by
  induction l with
  | nil => simp
  | cons p rest ih =>
    intro v hv
    simp only [lookupA] at h
    by_cases hk : p.1 = k
    · simp [hk] at h
    · simp only [hk, if_false] at h
      rcases List.mem_cons.mp hv with heq | hmem
      · exact hk (by cases heq; rfl)
      · exact ih h v hmem

theorem perform_type_bindings_infos (bs : List (Nat × Ty)) (cache : Cache) :
    (perform_type_bindings bs cache).type_infos = cache.type_infos := by
  induction bs generalizing cache with
  | nil => simp [perform_type_bindings]
  | cons p rest ih => cases p with | mk id t => simp [perform_type_bindings, ih]

theorem perform_type_bindings_length (bs : List (Nat × Ty)) (cache : Cache) :
    (perform_type_bindings bs cache).type_bindings.length = cache.type_bindings.length := by
  induction bs generalizing cache with
  | nil => simp [perform_type_bindings]
  | cons p rest ih =>
    cases p with | mk id t => simp [perform_type_bindings, ih, setB_length]

theorem perform_type_bindings_not_key (bs : List (Nat × Ty)) (cache : Cache) (j : Nat)
    (h : ∀ p ∈ bs, p.1 ≠ j) :
    getB (perform_type_bindings bs cache).type_bindings j = getB cache.type_bindings j := by
  induction bs generalizing cache with
  | nil => simp [perform_type_bindings]
  | cons p rest ih =>
    cases p with | mk id t =>
    simp only [perform_type_bindings]
    rw [ih _ (fun q hq => h q (List.mem_cons_of_mem _ hq))]
    exact getB_setB_ne _ _ _ _ (h (id, t) (List.mem_cons_self _ _))

theorem perform_type_bindings_mem (bs : List (Nat × Ty)) (cache : Cache) (id : Nat) (b : Ty)
    (hnd : NodupKeys bs) (hmem : (id, b) ∈ bs) (hlt : id < cache.type_bindings.length) :
    getB (perform_type_bindings bs cache).type_bindings id = .Bound b := by
  induction bs generalizing cache with
  | nil => simp at hmem
  | cons p rest ih =>
    cases p with | mk i t =>
    simp only [perform_type_bindings]
    rcases List.mem_cons.mp hmem with heq | hmem'
    · injection heq with h1 h2
      subst h1; subst h2
      rw [perform_type_bindings_not_key]
      · exact getB_setB_eq _ _ _ hlt
      · intro q hq he
        exact (List.pairwise_cons.mp hnd).1 q hq he.symm
    · exact ih _ (List.pairwise_cons.mp hnd).2 hmem'
        (by rw [setB_length]; exact hlt)

theorem perform_level_bindings_preserves_bound (ls : List (Nat × Nat)) (cache : Cache)
    (j : Nat) (b : Ty) (h : getB cache.type_bindings j = .Bound b) :
    getB (perform_level_bindings ls cache).type_bindings j = .Bound b := by
  induction ls generalizing cache with
  | nil => simpa [perform_level_bindings] using h
  | cons p rest ih =>
    cases p with | mk i lv =>
    cases hb : getB cache.type_bindings i with
    | Bound t =>
      simp only [perform_level_bindings, hb]
      exact ih _ h
    | Unbound ol kind =>
      simp only [perform_level_bindings, hb]
      refine ih _ ?_
      have hij : i ≠ j := by
        intro he; rw [he, h] at hb; exact TypeBinding.noConfusion hb
      simpa only [getB_setB_ne _ _ _ _ hij] using h

/-- Committing a well-keyed accumulator: each accumulated binding appears
bound in the cache afterwards. -/
theorem perform_lookup (bnd : UnificationBindings) (cache : Cache) (id : Nat) (b : Ty)
    (hnd : NodupKeys bnd.bindings) (hmem : (id, b) ∈ bnd.bindings)
    (hlt : id < cache.type_bindings.length) :
    getB (bnd.perform cache).type_bindings id = .Bound b := by
  unfold UnificationBindings.perform
  exact perform_level_bindings_preserves_bound _ _ _ _
    (perform_type_bindings_mem _ _ _ _ hnd hmem hlt)

theorem tvars_list_mem (ts : List Ty) (id : Nat) (h : id ∈ tvars_list ts) :
    ∃ t ∈ ts, id ∈ tvars t := by
  induction ts with
  | nil => simp [tvars_list] at h
  | cons t rest ih =>
    simp only [tvars_list, List.mem_append] at h
    rcases h with h | h
    · exact ⟨t, List.mem_cons_self _ _, h⟩
    · obtain ⟨u, hu, hm⟩ := ih h
      exact ⟨u, List.mem_cons_of_mem _ hu, hm⟩

theorem insertBinding_good (bnd : UnificationBindings) (id : Nat) (t : Ty)
    (hg : GoodBindings bnd) (hnm : id ∉ tvars t) : GoodBindings (insertBinding bnd id t) := by
  obtain ⟨hnd, hsf⟩ := hg
  constructor
  · refine List.pairwise_cons.mpr ⟨?_, ?_⟩
    · intro p hp
      have hmf := List.mem_filter.mp hp
      have hne : ¬ p.1 = id := by simpa using hmf.2
      exact fun he => hne he.symm
    · exact List.Pairwise.sublist (List.filter_sublist _) hnd
  · intro p hp
    simp only [insertBinding] at hp
    rcases List.mem_cons.mp hp with heq | hmem
    · subst heq; simpa using hnm
    · exact hsf p (List.mem_of_mem_filter hmem)

/-- Soundness of the occurs check: when `id` is unbound and the occurs check
on `t` reports no occurrence, `id` does not occur syntactically in `t`
(mutually with the `then_all` loop and `typevars_match`). -/
theorem occurs_false_aux : ∀ (f : Nat),
    (∀ id lvl t bnd cache ls l0 k0, find_binding id bnd cache = .Unbound l0 k0 →
       occursIn f id lvl t bnd cache = some ⟨false, ls⟩ → id ∉ tvars t)
  ∧ (∀ id lvl ts acc bnd cache ls l0 k0, find_binding id bnd cache = .Unbound l0 k0 →
       occursAll f id lvl ts acc bnd cache = some ⟨false, ls⟩ → ∀ t ∈ ts, id ∉ tvars t)
  ∧ (∀ id lvl w bnd cache ls l0 k0, find_binding id bnd cache = .Unbound l0 k0 →
       typevars_match f id lvl w bnd cache = some ⟨false, ls⟩ → id ≠ w) := by
  intro f
  induction f with
  | zero =>
    refine ⟨?_, ?_, ?_⟩
    · intro id lvl t bnd cache ls l0 k0 hub h; simp [occursIn] at h
    · intro id lvl ts acc bnd cache ls l0 k0 hub h; simp [occursAll] at h
    · intro id lvl w bnd cache ls l0 k0 hub h; simp [typevars_match] at h
  | succ f ih =>
    obtain ⟨ihA, ihB, ihC⟩ := ih
    refine ⟨?_, ?_, ?_⟩
    · intro id lvl t bnd cache ls l0 k0 hub h
      cases t with
      | Primitive p => simp [tvars]
      | UserDefined u => simp [tvars]
      | TypeVariable w =>
        simp only [occursIn] at h
        have hne := ihC id lvl w bnd cache ls l0 k0 hub h
        simp [tvars, hne]
      | Ref w =>
        simp only [occursIn] at h
        have hne := ihC id lvl w bnd cache ls l0 k0 hub h
        simp [tvars, hne]
      | Function ps r e v =>
        simp only [occursIn] at h
        split at h
        · simp at h
        · simp at h
        · rename_i ls1 heq1
          split at h
          · simp at h
          · simp at h
          · rename_i ls2 heq2
            intro hmem
            simp only [tvars, List.mem_append] at hmem
            rcases hmem with (hmem | hmem) | hmem
            · obtain ⟨t', ht', hid⟩ := tvars_list_mem ps id hmem
              exact ihB id lvl ps (ls1 ++ ls2) bnd cache ls l0 k0 hub h t' ht' hid
            · exact ihA id lvl r bnd cache ls1 l0 k0 hub heq1 hmem
            · exact ihA id lvl e bnd cache ls2 l0 k0 hub heq2 hmem
      | TypeApplication c args =>
        simp only [occursIn] at h
        split at h
        · simp at h
        · simp at h
        · rename_i ls1 heq1
          intro hmem
          simp only [tvars, List.mem_append] at hmem
          rcases hmem with hmem | hmem
          · exact ihA id lvl c bnd cache ls1 l0 k0 hub heq1 hmem
          · obtain ⟨t', ht', hid⟩ := tvars_list_mem args id hmem
            exact ihB id lvl args ls1 bnd cache ls l0 k0 hub h t' ht' hid
    · intro id lvl ts acc bnd cache ls l0 k0 hub h t hmem
      cases ts with
      | nil => simp at hmem
      | cons t0 rest =>
        simp only [occursAll] at h
        split at h
        · simp at h
        · simp at h
        · rename_i ls1 heq1
          rcases List.mem_cons.mp hmem with heq | hmem'
          · subst heq
            exact ihA id lvl t bnd cache ls1 l0 k0 hub heq1
          · exact ihB id lvl rest (acc ++ ls1) bnd cache ls l0 k0 hub h t hmem'
    · intro id lvl w bnd cache ls l0 k0 hub h
      simp only [typevars_match] at h
      split at h
      · rename_i binding heq
        intro he
        rw [he] at hub
        rw [hub] at heq
        exact TypeBinding.noConfusion heq
      · simp only [Option.some.injEq, OccursResult.mk.injEq] at h
        exact of_decide_eq_false h.1

/-- The occurs check's negative result, stated on the record. -/
theorem occurs_false_not_mem (f id lvl : Nat) (t : Ty) (bnd : UnificationBindings)
    (cache : Cache) (r : OccursResult) (l0 k0 : Nat)
    (hub : find_binding id bnd cache = .Unbound l0 k0)
    (h : occursIn f id lvl t bnd cache = some r) (hocc : r.occurs = false) :
    id ∉ tvars t := by
  obtain ⟨occ, ls⟩ := r
  simp only at hocc
  subst hocc
  exact (occurs_false_aux f).1 id lvl t bnd cache ls l0 k0 hub h

/-- Transitivity of the unification step invariant. -/
theorem inv_trans {bnd bnd1 bnd' : UnificationBindings} {cache cache1 cache' : Cache}
    (h1 : cache1 = cache ∧ (GoodBindings bnd → GoodBindings bnd1))
    (h2 : cache' = cache1 ∧ (GoodBindings bnd1 → GoodBindings bnd')) :
    cache' = cache ∧ (GoodBindings bnd → GoodBindings bnd') :=
  ⟨h2.1.trans h1.1, fun g => h2.2 (h1.2 g)⟩

/-- The unification invariant: every result of `try_unify_with_bindings` (and
of the pairwise loop and the type-variable case) returns the cache it was
given unchanged, and preserves well-formedness of the accumulator (unique
keys, and no binding whose right-hand side contains its own variable). -/
theorem unify_inv : ∀ (f : Nat),
    (∀ t1 t2 bnd cache o bnd' cache',
       try_unify_with_bindings f t1 t2 bnd cache = some (o, bnd', cache') →
       cache' = cache ∧ (GoodBindings bnd → GoodBindings bnd'))
  ∧ (∀ ps bnd cache o bnd' cache',
       try_unify_pairs f ps bnd cache = some (o, bnd', cache') →
       cache' = cache ∧ (GoodBindings bnd → GoodBindings bnd'))
  ∧ (∀ id a b bnd cache o bnd' cache',
       try_unify_type_variable_with_bindings f id a b bnd cache = some (o, bnd', cache') →
       cache' = cache ∧ (GoodBindings bnd → GoodBindings bnd')) := by
  intro f
  induction f with
  | zero =>
    refine ⟨?_, ?_, ?_⟩
    · intro t1 t2 bnd cache o bnd' cache' h; simp [try_unify_with_bindings] at h
    · intro ps bnd cache o bnd' cache' h; simp [try_unify_pairs] at h
    · intro id a b bnd cache o bnd' cache' h
      simp [try_unify_type_variable_with_bindings] at h
  | succ f ih =>
    obtain ⟨ihW, ihP, ihT⟩ := ih
    refine ⟨?_, ?_, ?_⟩
    · intro t1 t2 bnd cache o bnd' cache' h
      cases t1 <;> cases t2 <;> simp only [try_unify_with_bindings] at h <;>
        first
          | exact ihT _ _ _ _ _ _ _ _ h
          | (cases h; exact ⟨rfl, fun g => g⟩)
          | skip
      -- Primitive × Primitive
      · split at h <;> (cases h; exact ⟨rfl, fun g => g⟩)
      -- Function × Function
      · split at h
        · cases h; exact ⟨rfl, fun g => g⟩
        · split at h
          · simp at h
          · rename_i e bnd1 cache1 heq1
            cases h
            exact ihP _ _ _ _ _ _ heq1
          · rename_i bnd1 cache1 heq1
            split at h
            · simp at h
            · rename_i e bnd2 cache2 heq2
              cases h
              exact inv_trans (ihP _ _ _ _ _ _ heq1) (ihW _ _ _ _ _ _ _ heq2)
            · rename_i bnd2 cache2 heq2
              exact inv_trans (ihP _ _ _ _ _ _ heq1)
                (inv_trans (ihW _ _ _ _ _ _ _ heq2) (ihW _ _ _ _ _ _ _ h))
      -- UserDefined × UserDefined
      · split at h <;> (cases h; exact ⟨rfl, fun g => g⟩)
      -- TypeApplication × TypeApplication
      · split at h
        · cases h; exact ⟨rfl, fun g => g⟩
        · split at h
          · simp at h
          · rename_i e bnd1 cache1 heq1
            cases h
            exact ihW _ _ _ _ _ _ _ heq1
          · rename_i bnd1 cache1 heq1
            exact inv_trans (ihW _ _ _ _ _ _ _ heq1) (ihP _ _ _ _ _ _ h)
    · intro ps bnd cache o bnd' cache' h
      cases ps with
      | nil =>
        simp only [try_unify_pairs] at h
        cases h; exact ⟨rfl, fun g => g⟩
      | cons p rest =>
        obtain ⟨a, b⟩ := p
        simp only [try_unify_pairs] at h
        split at h
        · simp at h
        · rename_i e bnd1 cache1 heq1
          cases h
          exact ihW _ _ _ _ _ _ _ heq1
        · rename_i bnd1 cache1 heq1
          exact inv_trans (ihW _ _ _ _ _ _ _ heq1) (ihP _ _ _ _ _ _ h)
    · intro id a b bnd cache o bnd' cache' h
      simp only [try_unify_type_variable_with_bindings] at h
      split at h
      · exact ihW _ _ _ _ _ _ _ h
      · rename_i lvl k heqfb
        split at h
        · simp at h
        · rename_i b' heqf
          split at h
          · cases h; exact ⟨rfl, fun g => g⟩
          · split at h
            · simp at h
            · rename_i r heqo
              split at h
              · cases h; exact ⟨rfl, fun g => g⟩
              · rename_i hro
                cases h
                refine ⟨rfl, fun g => ?_⟩
                refine insertBinding_good _ _ _ g ?_
                exact occurs_false_not_mem f id lvl b' bnd cache r _ _ heqfb heqo
                  (by simpa using hro)

/-- The zipped pair loop of the source equals the specification's pairwise
unification: `zip` truncates to the shorter parameter list, so the longer
side's extra parameters are accepted without unification. -/
theorem pairs_zip_eq : ∀ (f : Nat) (ps1 ps2 : List Ty) (bnd : UnificationBindings)
    (cache : Cache),
    try_unify_pairs f (ps1.zip ps2) bnd cache =
      try_unify_params_pairwise f ps1 ps2 bnd cache := by
  intro f
  induction f with
  | zero =>
    intro ps1 ps2 bnd cache
    simp [try_unify_pairs, try_unify_params_pairwise]
  | succ f ih =>
    intro ps1 ps2 bnd cache
    cases ps1 with
    | nil => simp [try_unify_pairs, try_unify_params_pairwise]
    | cons a rest1 =>
      cases ps2 with
      | nil => simp [try_unify_pairs, try_unify_params_pairwise]
      | cons b rest2 =>
        simp only [List.zip_cons_cons, try_unify_pairs, try_unify_params_pairwise]
        cases hw : try_unify_with_bindings f a b bnd cache with
        | none => simp [hw]
        | some res =>
          obtain ⟨o, bnd1, cache1⟩ := res
          cases o with
          | ok => simp [hw, ih]
          | err e => simp [hw]

theorem max_by_key_go : ∀ (pairs : List (List Ty × Nat)) (q : List Ty × Nat),
    ∃ p, pairs.foldl max_by_key_step (some q) = some p ∧ (p ∈ pairs ∨ p = q) ∧
      p.2 = max q.2 ((pairs.map Prod.snd).foldr max 0) := by
  intro pairs
  induction pairs with
  | nil => intro q; exact ⟨q, rfl, Or.inr rfl, by simp⟩
  | cons r rest ih =>
    intro q
    simp only [List.foldl_cons, List.map_cons, List.foldr_cons]
    by_cases hle : q.2 ≤ r.2
    · obtain ⟨p, hfold, hmem, hmax⟩ := ih r
      refine ⟨p, ?_, ?_, ?_⟩
      · simpa [max_by_key_step, hle] using hfold
      · rcases hmem with hm | he
        · exact Or.inl (List.mem_cons_of_mem _ hm)
        · exact Or.inl (he ▸ List.mem_cons_self _ _)
      · rw [hmax]; omega
    · obtain ⟨p, hfold, hmem, hmax⟩ := ih q
      refine ⟨p, ?_, ?_, ?_⟩
      · simpa [max_by_key_step, hle] using hfold
      · rcases hmem with hm | he
        · exact Or.inl (List.mem_cons_of_mem _ hm)
        · exact Or.inr he
      · rw [hmax]; omega

/-- `max_by_key` on a non-empty list picks an element whose key is the
maximum of all keys. -/
theorem max_by_key_spec (pairs : List (List Ty × Nat)) (hne : pairs ≠ []) :
    ∃ p, max_by_key pairs = some p.1 ∧ p ∈ pairs ∧
      p.2 = (pairs.map Prod.snd).foldr max 0 := by
  cases pairs with
  | nil => exact absurd rfl hne
  | cons r rest =>
    obtain ⟨p, hfold, hmem, hmax⟩ := max_by_key_go rest r
    refine ⟨p, ?_, ?_, ?_⟩
    · simp only [max_by_key, List.foldl_cons]
      rw [show max_by_key_step none r = some r from rfl, hfold]
      rfl
    · rcases hmem with hm | he
      · exact List.mem_cons_of_mem _ hm
      · exact he ▸ List.mem_cons_self _ _
    · simpa using hmax

/-- `max_by_key` returns `none` only on the empty list. -/
theorem max_by_key_none (pairs : List (List Ty × Nat)) (h : max_by_key pairs = none) :
    pairs = [] := by
  cases pairs with
  | nil => rfl
  | cons r rest =>
    obtain ⟨p, hfold, _, _⟩ := max_by_key_go rest r
    simp [max_by_key, List.foldl_cons, show max_by_key_step none r = some r from rfl,
      hfold] at h

theorem getB_append_length (l : List TypeBinding) (b : TypeBinding) :
    getB (l ++ [b]) l.length = b := by
  induction l with
  | nil => rfl
  | cons x rest ih => simpa [getB] using ih

/-- Every pair produced by `attach_sizes` carries the summed size of its
variant as its key. -/
theorem attach_sizes_mem (ctx : Context) (f : Nat) :
    ∀ (vs : List (List Ty)) (pairs : List (List Ty × Nat)),
      ctx.attach_sizes f vs = some pairs →
      ∀ p ∈ pairs, ctx.size_of_type_sum f p.1 = some p.2 := by
  intro vs
  induction vs with
  | nil =>
    intro pairs h p hp
    simp only [Context.attach_sizes] at h
    cases h; simp at hp
  | cons v rest ih =>
    intro pairs h p hp
    simp only [Context.attach_sizes] at h
    split at h
    · simp at h
    · rename_i s hs
      split at h
      · simp at h
      · rename_i rest' hrest
        cases h
        rcases List.mem_cons.mp hp with heq | hmem
        · subst heq; exact hs
        · exact ih rest' hrest p hmem

theorem attach_sizes_length (ctx : Context) (f : Nat) :
    ∀ (vs : List (List Ty)) (pairs : List (List Ty × Nat)),
      ctx.attach_sizes f vs = some pairs → pairs.length = vs.length := by
  intro vs
  induction vs with
  | nil => intro pairs h; simp only [Context.attach_sizes] at h; cases h; rfl
  | cons v rest ih =>
    intro pairs h
    simp only [Context.attach_sizes] at h
    split at h
    · simp at h
    · rename_i s hs
      split at h
      · simp at h
      · rename_i rest' hrest
        cases h
        simp [ih rest' hrest]

theorem bind_variant_args_length (f : Nat) (bindings : List (Nat × Ty)) (cache : Cache) :
    ∀ (variants : List TypeConstructorInfo) (bound : List (List Ty)),
      bind_variant_args f variants bindings cache = some bound →
      bound.length = variants.length := by
  intro variants
  induction variants with
  | nil => intro bound h; simp only [bind_variant_args] at h; cases h; rfl
  | cons v rest ih =>
    intro bound h
    simp only [bind_variant_args] at h
    split at h
    · simp at h
    · rename_i ts hts
      split at h
      · simp at h
      · rename_i rest' hrest
        cases h
        simp [ih rest' hrest]

/-- Stability of the monomorphiser's `find_binding`: the `RECURSION_LIMIT`
fuel only cuts the walk short; a result reached without hitting the limit is
unchanged by more fuel (the limit aborts rather than producing a different
answer). -/
theorem find_binding_stable : ∀ (f : Nat) (ctx : Context) (id : Nat) (r : FindBindingResult),
    ctx.find_binding id f = r → r ≠ .panicked → ctx.find_binding id (f+1) = r := by
  intro f
  induction f with
  | zero =>
    intro ctx id r h hne
    exact absurd (by rw [← h]; rfl) hne
  | succ f ih =>
    intro ctx id r h hne
    simp only [Context.find_binding] at h
    show ctx.find_binding id ((f+1)+1) = r
    generalize hg : f + 1 = g
    simp only [Context.find_binding]
    subst hg
    cases hb : getB ctx.cache.type_bindings id with
    | Bound t =>
      cases t <;> simp only [hb] at h ⊢ <;>
        first
          | exact ih _ _ _ h hne
          | exact h
    | Unbound lvl k =>
      simp only [hb] at h ⊢
      cases hs : find_binding_in_stack ctx.monomorphisation_bindings.reverse id with
      | none => simp only [hs] at h ⊢; exact h
      | some t =>
        cases t <;> simp only [hs] at h ⊢ <;>
          first
            | exact ih _ _ _ h hne
            | exact h

/-! ## Claims -/

/-- C9: the refinement bridge maps every primitive integer type and char to
the SMT Int sort, bool to the SMT Bool sort, unit to the SMT Bool sort, and
float to the SMT Real sort. -/
theorem primitive_sort_mapping :
    (∀ k, primitive_type_to_sort (.IntegerType k) = .int) ∧
    primitive_type_to_sort .CharType = .int ∧
    primitive_type_to_sort .BooleanType = .bool ∧
    primitive_type_to_sort .UnitType = .bool ∧
    primitive_type_to_sort .FloatType = .real :=
  ⟨fun _ => rfl, rfl, rfl, rfl, rfl⟩

/-- C5 counterexample: inferring an assignment whose left-hand side is a
non-mutable `bool` variable (both sub-inferences performed by `inferBoolVar`,
which emits nothing) yields the unit type, no constraints, and an unchanged
state with error count 0 — no mutability check is performed and no
diagnostic is emitted, refuting the claim that a non-mutable left-hand side
is an error. -/
theorem assignment_no_mutability_check_counterexample :
    assignment_infer_impl inferBoolVar inferBoolVar stEmpty =
      ⟨.Primitive .UnitType, [], stEmpty⟩ ∧
    stEmpty.errors = 0 ∧
    (assignment_infer_impl inferBoolVar inferBoolVar stEmpty).st.errors = 0 :=
  ⟨rfl, rfl, rfl⟩

/-- C5 amended: the assignment rule infers the left-hand side, then the
right-hand side on the resulting state, assigns the unit type to the
assignment expression and appends the two constraint lists; it performs no
mutability check on the left-hand side and emits no diagnostic of its own
(the error count after the rule is the one left by the sub-inferences). -/
theorem assignment_infer_amended :
    ∀ (infer_lhs infer_rhs : InferState → InferResult) (st : InferState),
      (assignment_infer_impl infer_lhs infer_rhs st).typ = .Primitive .UnitType ∧
      (assignment_infer_impl infer_lhs infer_rhs st).traits =
        (infer_lhs st).traits ++ (infer_rhs (infer_lhs st).st).traits ∧
      (assignment_infer_impl infer_lhs infer_rhs st).st = (infer_rhs (infer_lhs st).st).st ∧
      (assignment_infer_impl infer_lhs infer_rhs st).st.errors =
        (infer_rhs (infer_lhs st).st).st.errors :=
  fun _ _ _ => ⟨rfl, rfl, rfl, rfl⟩

/-- C2, evaluated at the failing input: with type variable 0 unbound at
level 3 and type variable 1 unbound at level 5, unifying `tv0` with `tv1`
succeeds with the binding `tv0 ↦ tv1` and no level bindings, and after the
commit variable 1 is still recorded at level 5 — not at
`min 5 3 = 3` as the claim requires (the occurs check records the needle
instead of the reachable variable, and `try_unify_type_variable_with_bindings`
drops the occurs result's level bindings altogether). -/
theorem level_lowering_not_performed :
    try_unify 6 (.TypeVariable 0) (.TypeVariable 1) cacheTwoLevels =
      some (.ok, ⟨[(0, .TypeVariable 1)], []⟩, cacheTwoLevels) ∧
    getB ((UnificationBindings.perform ⟨[(0, .TypeVariable 1)], []⟩ cacheTwoLevels).type_bindings) 1 =
      .Unbound 5 0 ∧
    getB ((UnificationBindings.perform ⟨[(0, .TypeVariable 1)], []⟩ cacheTwoLevels).type_bindings) 0 =
      .Bound (.TypeVariable 1) ∧
    min 5 3 ≠ 5 :=
  ⟨by decide, by decide, by decide, by decide⟩

/-- C6: the monomorphiser's `convert_integer_kind` turns an `Unknown` kind
and an `Inferred` kind whose type variable is still unbound (after following
all bindings) into `DEFAULT_INTEGER_KIND`, which is signed 32-bit; inference
itself applies no default: the integer literal rule allocates a fresh type
variable (left unbound, carrying the `Int` constraint) and rewrites the
literal's kind to `Inferred` of that variable. -/
theorem integer_kind_defaulting :
    (∀ (ctx : Context) (f : Nat),
       ctx.convert_integer_kind (f+1) .Unknown = some DEFAULT_INTEGER_KIND)
  ∧ (∀ (ctx : Context) (f id v : Nat),
       ctx.find_binding id RECURSION_LIMIT = .unbound v →
       ctx.convert_integer_kind (f+1) (.Inferred id) = some DEFAULT_INTEGER_KIND)
  ∧ DEFAULT_INTEGER_KIND = .I32
  ∧ (∀ (st : InferState),
       (literal_infer_integer .Unknown st).1 = .TypeVariable st.cache.type_bindings.length ∧
       (literal_infer_integer .Unknown st).2.1 = [st.cache.type_bindings.length] ∧
       (literal_infer_integer .Unknown st).2.2.1 = .Inferred st.cache.type_bindings.length ∧
       getB (literal_infer_integer .Unknown st).2.2.2.cache.type_bindings
         st.cache.type_bindings.length = .Unbound st.current_level 0) := by
  refine ⟨fun ctx f => rfl, ?_, rfl, ?_⟩
  · intro ctx f id v h
    simp only [Context.convert_integer_kind, h]
  · intro st
    refine ⟨rfl, rfl, rfl, ?_⟩
    exact getB_append_length _ _

/-- C6 witness. -/
theorem integer_kind_defaulting_witness :
    ctxOneVar.convert_integer_kind 3 (.Inferred 0) = some DEFAULT_INTEGER_KIND :=
  integer_kind_defaulting.2.1 ctxOneVar 2 0 0 (by decide)

/-- C3: `try_unify` (and the underlying `try_unify_with_bindings`) never
mutates the cache's type bindings — the threaded cache comes back unchanged,
with the would-be bindings in the returned accumulator; the bindings take
effect only when the caller invokes `perform`, after which each accumulated
binding is recorded in the cache. -/
theorem try_unify_frame :
    (∀ (f : Nat) (t1 t2 : Ty) (cache : Cache) (o : UnifyOutcome)
       (bnd' : UnificationBindings) (cache' : Cache),
       try_unify f t1 t2 cache = some (o, bnd', cache') → cache' = cache)
  ∧ (∀ (f : Nat) (t1 t2 : Ty) (bnd : UnificationBindings) (cache : Cache) (o : UnifyOutcome)
       (bnd' : UnificationBindings) (cache' : Cache),
       try_unify_with_bindings f t1 t2 bnd cache = some (o, bnd', cache') → cache' = cache)
  ∧ (∀ (bnd : UnificationBindings) (cache : Cache) (id : Nat) (b : Ty),
       NodupKeys bnd.bindings → (id, b) ∈ bnd.bindings → id < cache.type_bindings.length →
       getB (bnd.perform cache).type_bindings id = .Bound b) := by
  refine ⟨?_, ?_, ?_⟩
  · intro f t1 t2 cache o bnd' cache' h
    exact ((unify_inv f).1 _ _ _ _ _ _ _ h).1
  · intro f t1 t2 bnd cache o bnd' cache' h
    exact ((unify_inv f).1 _ _ _ _ _ _ _ h).1
  · exact fun bnd cache id b => perform_lookup bnd cache id b

/-- C3 witness. -/
theorem try_unify_frame_witness :
    (try_unify 5 (.TypeVariable 0) (.Primitive .UnitType) cacheOneVar =
      some (.ok, ⟨[(0, .Primitive .UnitType)], []⟩, cacheOneVar)) ∧
    cacheOneVar = cacheOneVar :=
  ⟨by decide, try_unify_frame.1 5 (.TypeVariable 0) (.Primitive .UnitType) cacheOneVar
    .ok ⟨[(0, .Primitive .UnitType)], []⟩ cacheOneVar (by decide)⟩

/-- C1 counterexample: variable 0 occurs (trivially) in the type `tv0`, yet
unifying `tv0` with `tv0` succeeds — `try_unify_type_variable_with_bindings`
returns `Ok` before running the occurs check when the followed right-hand side
is the variable itself (`if *a != b`), refuting the claim that unification of
α with every T containing α fails with a diagnostic. -/
theorem occurs_check_reflexive_counterexample :
    0 ∈ tvars (.TypeVariable 0) ∧
    getB cacheOneVar.type_bindings 0 = .Unbound 1 0 ∧
    try_unify 3 (.TypeVariable 0) (.TypeVariable 0) cacheOneVar =
      some (.ok, UnificationBindings.empty, cacheOneVar) := by
  refine ⟨?_, by decide, by decide⟩
  simp [tvars]

/-- C1 amended: when the unbound variable `id` is unified against a type
whose followed form is not `id` itself and in which the occurs check reports
an occurrence, unification fails with the recursive-type diagnostic; and
every successful unification returns an accumulator none of whose bindings
maps a variable to a term containing that same variable, so after the
accumulator is committed with `perform`, each accumulated binding appears in
the cache bound to a term not containing its own variable.  (The reflexive
case `α ~ α` succeeds without inserting anything, so the amendment asks the
followed right-hand side to differ from α.) -/
theorem occurs_check_amended :
    (∀ (f id lvl k : Nat) (b b' : Ty) (bnd : UnificationBindings) (cache : Cache),
       find_binding id bnd cache = .Unbound lvl k →
       follow_bindings_in_cache_and_map f b bnd cache = some b' →
       Ty.TypeVariable id ≠ b' →
       (∃ r, occursIn f id lvl b' bnd cache = some r ∧ r.occurs = true) →
       try_unify_type_variable_with_bindings (f+1) id (.TypeVariable id) b bnd cache =
         some (.err .recursiveType, bnd, cache))
  ∧ (∀ (f : Nat) (t1 t2 : Ty) (cache : Cache) (o : UnifyOutcome)
       (bnd' : UnificationBindings) (cache' : Cache),
       try_unify f t1 t2 cache = some (o, bnd', cache') →
       SelfFree bnd' ∧
       ∀ (id : Nat) (b : Ty), (id, b) ∈ bnd'.bindings → id < cache.type_bindings.length →
         getB (bnd'.perform cache).type_bindings id = .Bound b ∧ id ∉ tvars b) := by
  constructor
  · intro f id lvl k b b' bnd cache h1 h2 h3 h4
    obtain ⟨r, hocc, htrue⟩ := h4
    simp only [try_unify_type_variable_with_bindings, h1, h2, hocc, htrue,
      if_neg h3, if_true]
  · intro f t1 t2 cache o bnd' cache' h
    have h' : try_unify_with_bindings f t1 t2 UnificationBindings.empty cache =
        some (o, bnd', cache') := h
    have hgood : GoodBindings bnd' :=
      ((unify_inv f).1 _ _ _ _ _ _ _ h').2
        ⟨List.Pairwise.nil, fun p hp => absurd hp (List.not_mem_nil p)⟩
    refine ⟨hgood.2, ?_⟩
    intro id b hmem hlt
    exact ⟨perform_lookup bnd' cache id b hgood.1 hmem hlt, hgood.2 (id, b) hmem⟩

/-- C1 witness: unifying the unbound variable 0 against a function type
mentioning it fails with the recursive-type diagnostic. -/
theorem occurs_check_amended_witness :
    try_unify_type_variable_with_bindings 6 0 (.TypeVariable 0) tyMentioningVar0
      UnificationBindings.empty cacheOneVar =
      some (.err .recursiveType, UnificationBindings.empty, cacheOneVar) :=
  occurs_check_amended.1 5 0 1 0 tyMentioningVar0 tyMentioningVar0
    UnificationBindings.empty cacheOneVar (by decide) (by decide) (by decide)
    ⟨⟨true, []⟩, by decide, rfl⟩

/-- C4: on two function types, the source's unification agrees with the
specification's description — when the parameter counts differ it proceeds
only if one side is varargs and the other side has at least as many
parameters (and `zip` truncation accepts the longer side's extras without
unifying them, by `pairs_zip_eq`), failing with the argument-count diagnostic
otherwise; when it proceeds, parameters unify pairwise, then the return
types, then the environments. -/
theorem function_unification_spec_eq :
    ∀ (f : Nat) (ps1 : List Ty) (r1 e1 : Ty) (v1 : Bool) (ps2 : List Ty) (r2 e2 : Ty)
      (v2 : Bool) (bnd : UnificationBindings) (cache : Cache),
      try_unify_with_bindings (f+1) (.Function ps1 r1 e1 v1) (.Function ps2 r2 e2 v2)
          bnd cache =
        unify_function_types_spec f ps1 r1 e1 v1 ps2 r2 e2 v2 bnd cache := by
  intro f ps1 r1 e1 v1 ps2 r2 e2 v2 bnd cache
  simp only [try_unify_with_bindings, unify_function_types_spec]
  by_cases hc : ps1.length = ps2.length ∨ (v1 = true ∧ ps1.length ≤ ps2.length) ∨
      (v2 = true ∧ ps2.length ≤ ps1.length)
  · rw [if_pos hc, if_neg ?hneg, pairs_zip_eq]
    case hneg =>
      rintro ⟨hne, hnv1, hnv2⟩
      rcases hc with h | ⟨hv, hl⟩ | ⟨hv, hl⟩
      · exact hne h
      · exact hnv1 ⟨hv, hl⟩
      · exact hnv2 ⟨hv, hl⟩
  · rw [if_neg hc, if_pos ?hpos]
    case hpos =>
      refine ⟨fun he => hc (Or.inl he), fun hp => hc (Or.inr (Or.inl ⟨hp.1, hp.2⟩)),
        fun hp => hc (Or.inr (Or.inr ⟨hp.1, hp.2⟩))⟩

/-- C7: a successfully sized sum type with no variants has size 0, and one
with variants has size 1 (for the tag) plus the maximum over the variants of
the summed sizes of that variant's (substituted) field types; individual
sizes come from the fixed table — integers by bit width over 8, float 8,
bool, char and unit 1, and pointers, functions and refs the target word size
(8 bytes). -/
theorem union_size_formula :
    (∀ (ctx : Context) (f : Nat) (info : TypeInfo) (variants : List TypeConstructorInfo)
       (args : List Ty) (s : Nat),
       ctx.size_of_union_type f info variants args = some s →
       (variants = [] → s = 0) ∧
       (variants ≠ [] → ∃ bound pairs,
          bind_variant_args f variants (type_application_bindings info.args args)
            ctx.cache = some bound ∧
          ctx.attach_sizes f bound = some pairs ∧
          (∀ p ∈ pairs, ctx.size_of_type_sum f p.1 = some p.2) ∧
          pairs.length = variants.length ∧
          s = 1 + (pairs.map Prod.snd).foldr max 0))
  ∧ (∀ (ctx : Context) (f : Nat) (k : HirIntegerKind),
       ctx.size_of_type (f+2) (.Primitive (.IntegerType (token_of_concrete k))) =
         some (bit_count k / 8))
  ∧ (∀ (ctx : Context) (f : Nat), ctx.size_of_type (f+1) (.Primitive .FloatType) = some 8)
  ∧ (∀ (ctx : Context) (f : Nat), ctx.size_of_type (f+1) (.Primitive .BooleanType) = some 1)
  ∧ (∀ (ctx : Context) (f : Nat), ctx.size_of_type (f+1) (.Primitive .CharType) = some 1)
  ∧ (∀ (ctx : Context) (f : Nat), ctx.size_of_type (f+1) (.Primitive .UnitType) = some 1)
  ∧ (∀ (ctx : Context) (f : Nat), ctx.size_of_type (f+1) (.Primitive .Ptr) = some ptr_size)
  ∧ (∀ (ctx : Context) (f : Nat) (ps : List Ty) (r e : Ty) (v : Bool),
       ctx.size_of_type (f+1) (.Function ps r e v) = some ptr_size)
  ∧ (∀ (ctx : Context) (f id : Nat), ctx.size_of_type (f+1) (.Ref id) = some ptr_size)
  ∧ ptr_size = 8 := by
  refine ⟨?_, ?_, ?_, ?_, ?_, ?_, ?_, ?_, ?_, rfl⟩
  · intro ctx f info variants args s h
    constructor
    · intro hv
      subst hv
      simp [Context.size_of_union_type, Context.find_largest_union_variant,
        bind_variant_args, Context.attach_sizes, max_by_key] at h
      omega
    · intro hv
      simp only [Context.size_of_union_type, Context.find_largest_union_variant] at h
      cases hbva : bind_variant_args f variants
          (type_application_bindings info.args args) ctx.cache with
      | none =>
        simp only [hbva] at h
        exact Option.noConfusion h
      | some bound =>
        simp only [hbva] at h
        cases hat : ctx.attach_sizes f bound with
        | none =>
          simp only [hat] at h
          exact Option.noConfusion h
        | some pairs =>
          simp only [hat] at h
          have hlenb := bind_variant_args_length f _ ctx.cache variants bound hbva
          have hlenp := attach_sizes_length ctx f bound pairs hat
          have hpne : pairs ≠ [] := by
            intro hpe
            apply hv
            cases variants with
            | nil => rfl
            | cons v rest =>
              subst hpe
              rw [hlenb] at hlenp
              simp at hlenp
          obtain ⟨p, hmk, hpmem, hpmax⟩ := max_by_key_spec pairs hpne
          simp only [hmk] at h
          have hsum := attach_sizes_mem ctx f bound pairs hat p hpmem
          simp only [hsum, Option.some.injEq] at h
          refine ⟨bound, pairs, rfl, hat, attach_sizes_mem ctx f bound pairs hat,
            hlenp.trans hlenb, ?_⟩
          omega
  · intro ctx f k
    cases k <;>
      simp [Context.size_of_type, Context.integer_bit_count, Context.convert_integer_kind,
        token_of_concrete, bit_count]
  · intro ctx f
    simp [Context.size_of_type]
  · intro ctx f
    simp [Context.size_of_type]
  · intro ctx f
    simp [Context.size_of_type]
  · intro ctx f
    simp [Context.size_of_type]
  · intro ctx f
    simp [Context.size_of_type]
  · intro ctx f ps r e v
    simp [Context.size_of_type]
  · intro ctx f id
    simp [Context.size_of_type]

/-- C7 witness: the size of an `Option i32`-like sum type is 5 — the 1-byte
tag plus the 4 bytes of its largest variant's `i32` field. -/
theorem union_size_formula_witness :
    ctxOption.size_of_union_type 20 optionInfo optionVariants [] = some 5 ∧
    (optionVariants ≠ [] → ∃ bound pairs,
       bind_variant_args 20 optionVariants
         (type_application_bindings optionInfo.args []) ctxOption.cache = some bound ∧
       ctxOption.attach_sizes 20 bound = some pairs ∧
       (∀ p ∈ pairs, ctxOption.size_of_type_sum 20 p.1 = some p.2) ∧
       pairs.length = optionVariants.length ∧
       5 = 1 + (pairs.map Prod.snd).foldr max 0) := by
  have h : ctxOption.size_of_union_type 20 optionInfo optionVariants [] = some 5 := by
    simp [Context.size_of_union_type, Context.find_largest_union_variant,
      Context.attach_sizes, Context.size_of_type_sum, Context.size_of_type,
      bind_variant_args, bind_typevars_list, bind_typevars, type_application_bindings,
      max_by_key, max_by_key_step, Context.integer_bit_count, Context.convert_integer_kind,
      bit_count, ptr_size, optionVariants, optionInfo, ctxOption, DEFAULT_INTEGER_KIND]
  exact ⟨h, (union_size_formula.1 ctxOption 20 optionInfo optionVariants [] 5 h).2⟩

set_option maxRecDepth 100000 in
/-- C8 counterexample: on a corrupted 502-link binding chain, the
monomorphiser's `find_binding` does abort loudly at the fixed
`RECURSION_LIMIT` of 500 — but the typechecker's `follow_bindings_in_cache`,
whose Rust original carries no recursion bound at all (the fuel below is an
artifact of the embedding), follows all 502 links and returns normally,
refuting the claim that *every* operation following binding chains is bounded
at 500 steps and aborts beyond it. -/
theorem recursion_limit_counterexample :
    chainContext.find_binding 0 RECURSION_LIMIT = .panicked ∧
    follow_bindings_in_cache 503 (.TypeVariable 0) chainCache =
      some (.Primitive .UnitType) ∧
    RECURSION_LIMIT = 500 ∧ 500 < 503 :=
  ⟨by decide, by decide, rfl, by decide⟩

/-- C8 amended: the monomorphiser's `find_binding` enforces the fixed
recursion bound of 500: it aborts (`panic!`) when the fuel runs out, and the
bound only ever cuts the walk short — a result reached without exhausting the
fuel is stable under more fuel, so the abort never stands in for a wrong
answer.  (The typechecker's own chain-following helpers carry no such bound;
only the monomorphiser enforces one.) -/
theorem recursion_limit_amended :
    RECURSION_LIMIT = 500 ∧
    (∀ (ctx : Context) (id : Nat), ctx.find_binding id 0 = .panicked) ∧
    (∀ (f : Nat) (ctx : Context) (id : Nat) (r : FindBindingResult),
      ctx.find_binding id f = r → r ≠ .panicked → ctx.find_binding id (f+1) = r) :=
  ⟨rfl, fun _ _ => rfl, find_binding_stable⟩

/-- C8 witness: a 1-link chain resolves within the bound, and the result is
unchanged when the fuel grows. -/
theorem recursion_limit_amended_witness :
    ctxBoundInt.find_binding 0 1 = .ok (.Primitive (.IntegerType .U16)) ∧
    ctxBoundInt.find_binding 0 2 = .ok (.Primitive (.IntegerType .U16)) :=
  ⟨by decide, recursion_limit_amended.2.2 1 ctxBoundInt 0
    (.ok (.Primitive (.IntegerType .U16))) (by decide) (by decide)⟩

/-- C10: converting a type variable that is still unbound after following all
bindings does not fail — `convert_type_inner` falls back to converting
`UNBOUND_TYPE`, which is the unit type and converts to the IR unit type;
`size_of_type` falls back the same way and sizes it at 1 byte. -/
theorem unbound_typevar_converts_to_unit :
    (∀ (ctx : Context) (f id v : Nat),
       ctx.find_binding id f = .unbound v →
       ctx.convert_type_inner (f+1) (.TypeVariable id) = ctx.convert_type_inner f UNBOUND_TYPE)
  ∧ (∀ (ctx : Context) (f : Nat),
       ctx.convert_type_inner (f+1) UNBOUND_TYPE = some (.Primitive .Unit, ctx))
  ∧ (∀ (ctx : Context) (f id v : Nat),
       ctx.find_binding id RECURSION_LIMIT = .unbound v →
       ctx.size_of_type (f+1) (.TypeVariable id) = ctx.size_of_type f UNBOUND_TYPE)
  ∧ (∀ (ctx : Context) (f : Nat), ctx.size_of_type (f+1) UNBOUND_TYPE = some 1)
  ∧ UNBOUND_TYPE = .Primitive .UnitType := by
  refine ⟨?_, ?_, ?_, ?_, rfl⟩
  · intro ctx f id v h
    simp only [Context.convert_type_inner, h]
  · intro ctx f
    rfl
  · intro ctx f id v h
    simp only [Context.size_of_type, h]
  · intro ctx f
    simp [Context.size_of_type, UNBOUND_TYPE]

/-- C10 witness: in a context whose only variable is unbound, converting that
variable yields the IR unit type and sizing it yields 1. -/
theorem unbound_typevar_converts_to_unit_witness :
    ctxOneVar.convert_type_inner 2 (.TypeVariable 0) = some (.Primitive .Unit, ctxOneVar) ∧
    ctxOneVar.size_of_type 2 (.TypeVariable 0) = some 1 := by
  have h1 := unbound_typevar_converts_to_unit.1 ctxOneVar 1 0 0 (by decide)
  have h2 := unbound_typevar_converts_to_unit.2.1 ctxOneVar 0
  have h3 := unbound_typevar_converts_to_unit.2.2.1 ctxOneVar 1 0 0 (by decide)
  have h4 := unbound_typevar_converts_to_unit.2.2.2.1 ctxOneVar 0
  exact ⟨h1.trans h2, h3.trans h4⟩

end Ante
